import Mathlib

/-!
Shallow embedding of the eigenvue quantum state-vector engine
(`src/python/src/eigenvue/math_utils/quantum_math.py` together with the
quantum step generators that drive it), and theorems settling the
specification's claims about it.

Source complex numbers are (real, imaginary) pairs of floats; we embed
them as `ℂ` (a structure with `re`/`im` fields) and define every source
operation by its source formula, with floats modelled as exact reals.
Python lists become `List`, in-place index assignment becomes `List.set`,
and functions that raise become `Option`/`Except`-returning functions.
-/

namespace Eigenvue

noncomputable section

abbrev Cplx := ℂ

abbrev StateVector := List Cplx

abbrev GateMatrix := List (List Cplx)

/-- `NORM_TOLERANCE = 1e-9` from the source. -/
def NORM_TOLERANCE : ℝ := 1e-9

/-- `EPSILON = 1e-10` from the source. -/
def EPSILON : ℝ := 1e-10

/-- `ZERO = (0.0, 0.0)`. -/
def ZERO : Cplx := ⟨0, 0⟩

/-- `ONE = (1.0, 0.0)`. -/
def ONE : Cplx := ⟨1, 0⟩

/-- `complex_add`: `(a[0] + b[0], a[1] + b[1])`. -/
def complex_add (a b : Cplx) : Cplx := ⟨a.re + b.re, a.im + b.im⟩

/-- `complex_sub`: `(a[0] - b[0], a[1] - b[1])`. -/
def complex_sub (a b : Cplx) : Cplx := ⟨a.re - b.re, a.im - b.im⟩

/-- `complex_mul`: `(ac - bd, ad + bc)`. -/
def complex_mul (a b : Cplx) : Cplx :=
  ⟨a.re * b.re - a.im * b.im, a.re * b.im + a.im * b.re⟩

/-- `complex_neg`: `(-a[0], -a[1])`. -/
def complex_neg (a : Cplx) : Cplx := ⟨-a.re, -a.im⟩

/-- `complex_abs_sq`: `a[0]*a[0] + a[1]*a[1]`. -/
def complex_abs_sq (a : Cplx) : ℝ := a.re * a.re + a.im * a.im

/-- `complex_abs`: `math.sqrt(complex_abs_sq(a))`. -/
def complex_abs (a : Cplx) : ℝ := Real.sqrt (complex_abs_sq a)

/-- `complex_arg`: `math.atan2(a[1], a[0])`, range `(-π, π]`; this is
exactly `Complex.arg`. -/
def complex_arg (a : Cplx) : ℝ := Complex.arg a

/-- `complex_exp`: `(cos φ, sin φ)`. -/
def complex_exp (phi : ℝ) : Cplx := ⟨Real.cos phi, Real.sin phi⟩

/-- `complex_scale`: `(scalar * z[0], scalar * z[1])`. -/
def complex_scale (scalar : ℝ) (z : Cplx) : Cplx := ⟨scalar * z.re, scalar * z.im⟩

-- Bridging lemmas: each source operation agrees with the corresponding
-- `ℂ` field operation.

theorem complex_add_eq (a b : Cplx) : complex_add a b = a + b := by
  apply Complex.ext <;> simp [complex_add]

theorem complex_sub_eq (a b : Cplx) : complex_sub a b = a - b := by
  apply Complex.ext <;> simp [complex_sub]

theorem complex_mul_eq (a b : Cplx) : complex_mul a b = a * b := by
  apply Complex.ext <;> simp [complex_mul, Complex.mul_re, Complex.mul_im]

theorem complex_neg_eq (a : Cplx) : complex_neg a = -a := by
  apply Complex.ext <;> simp [complex_neg]

theorem complex_scale_eq (s : ℝ) (z : Cplx) : complex_scale s z = (s : ℂ) * z := by
  apply Complex.ext <;> simp [complex_scale]

theorem complex_abs_sq_eq (a : Cplx) : complex_abs_sq a = Complex.normSq a := by
  simp [complex_abs_sq, Complex.normSq_apply]

theorem complex_abs_eq (a : Cplx) : complex_abs a = Complex.abs a := by
  simp [complex_abs, complex_abs_sq_eq, Complex.abs_apply]

theorem ZERO_eq : ZERO = 0 := by apply Complex.ext <;> simp [ZERO]

theorem ONE_eq : ONE = 1 := by apply Complex.ext <;> simp [ONE]

-- ── State vector operations ────────────────────────────────────────────

/-- `create_zero_state`: an all-zero vector of length `2^n` with
amplitude `(1.0, 0.0)` written at index 0. -/
def create_zero_state (num_qubits : ℕ) : StateVector :=
  (List.replicate (1 <<< num_qubits) ⟨0, 0⟩).set 0 ⟨1, 0⟩

/-- `state_vector_norm_sq`: running total of `complex_abs_sq` over the list. -/
def state_vector_norm_sq (state : StateVector) : ℝ :=
  state.foldl (fun total amp => total + complex_abs_sq amp) 0

/-- `measurement_probabilities`: `[complex_abs_sq(amp) for amp in state]`. -/
def measurement_probabilities (state : StateVector) : List ℝ :=
  state.map (fun amp => complex_abs_sq amp)

/-- `project_and_normalize`: zero the amplitudes whose bit for the measured
qubit differs from `outcome`, rescale the others by `1/√prob`; the
`ValueError` raised when `prob < EPSILON` becomes `none`. -/
def project_and_normalize (state : StateVector) (qubit outcome num_qubits : ℕ) :
    Option StateVector :=
  let bit_position := num_qubits - 1 - qubit
  let prob := state.enum.foldl
    (fun p ka => if (ka.1 >>> bit_position) &&& 1 = outcome then p + complex_abs_sq ka.2 else p) 0
  if prob < EPSILON then none
  else
    let norm_factor := 1 / Real.sqrt prob
    some (state.enum.map (fun ka =>
      if (ka.1 >>> bit_position) &&& 1 = outcome then complex_scale norm_factor ka.2 else ZERO))

-- ── Standard gate matrices ─────────────────────────────────────────────

def GATE_I : GateMatrix := [[⟨1, 0⟩, ⟨0, 0⟩], [⟨0, 0⟩, ⟨1, 0⟩]]

def GATE_X : GateMatrix := [[⟨0, 0⟩, ⟨1, 0⟩], [⟨1, 0⟩, ⟨0, 0⟩]]

def GATE_Y : GateMatrix := [[⟨0, 0⟩, ⟨0, -1⟩], [⟨0, 1⟩, ⟨0, 0⟩]]

def GATE_Z : GateMatrix := [[⟨1, 0⟩, ⟨0, 0⟩], [⟨0, 0⟩, ⟨-1, 0⟩]]

/-- `_SQRT1_2 = 1.0 / math.sqrt(2.0)`. -/
def _SQRT1_2 : ℝ := 1 / Real.sqrt 2

def GATE_H : GateMatrix :=
  [[⟨_SQRT1_2, 0⟩, ⟨_SQRT1_2, 0⟩], [⟨_SQRT1_2, 0⟩, ⟨-_SQRT1_2, 0⟩]]

def GATE_S : GateMatrix := [[⟨1, 0⟩, ⟨0, 0⟩], [⟨0, 0⟩, ⟨0, 1⟩]]

def GATE_T : GateMatrix := [[⟨1, 0⟩, ⟨0, 0⟩], [⟨0, 0⟩, ⟨_SQRT1_2, _SQRT1_2⟩]]

/-- `gate_rx(θ)`. -/
def gate_rx (theta : ℝ) : GateMatrix :=
  let c := Real.cos (theta / 2)
  let s := Real.sin (theta / 2)
  [[⟨c, 0⟩, ⟨0, -s⟩], [⟨0, -s⟩, ⟨c, 0⟩]]

/-- `gate_ry(θ)`. -/
def gate_ry (theta : ℝ) : GateMatrix :=
  let c := Real.cos (theta / 2)
  let s := Real.sin (theta / 2)
  [[⟨c, 0⟩, ⟨-s, 0⟩], [⟨s, 0⟩, ⟨c, 0⟩]]

/-- `gate_rz(θ)`. -/
def gate_rz (theta : ℝ) : GateMatrix :=
  let c := Real.cos (theta / 2)
  let s := Real.sin (theta / 2)
  [[⟨c, -s⟩, ⟨0, 0⟩], [⟨0, 0⟩, ⟨c, s⟩]]

/-- `get_standard_gate(name, angle)`: dictionary lookup for the seven fixed
names, then the three parametric names guarded by `angle is not None`,
otherwise `None`. -/
def get_standard_gate (name : String) (angle : Option ℝ) : Option GateMatrix :=
  if name = "I" then some GATE_I
  else if name = "X" then some GATE_X
  else if name = "Y" then some GATE_Y
  else if name = "Z" then some GATE_Z
  else if name = "H" then some GATE_H
  else if name = "S" then some GATE_S
  else if name = "T" then some GATE_T
  else if name = "Rx" then match angle with | some a => some (gate_rx a) | none => none
  else if name = "Ry" then match angle with | some a => some (gate_ry a) | none => none
  else if name = "Rz" then match angle with | some a => some (gate_rz a) | none => none
  else none

def GATE_CNOT : GateMatrix :=
  [[⟨1, 0⟩, ⟨0, 0⟩, ⟨0, 0⟩, ⟨0, 0⟩],
   [⟨0, 0⟩, ⟨1, 0⟩, ⟨0, 0⟩, ⟨0, 0⟩],
   [⟨0, 0⟩, ⟨0, 0⟩, ⟨0, 0⟩, ⟨1, 0⟩],
   [⟨0, 0⟩, ⟨0, 0⟩, ⟨1, 0⟩, ⟨0, 0⟩]]

-- ── Gate application ───────────────────────────────────────────────────

/-- `apply_single_qubit_gate`: for each index `i` of `range(2^n)` whose
target bit is 0, rewrite the pair `(i, i | step_size)` through the 2×2
gate; the Python in-place mutation becomes a fold with `List.set`. -/
def apply_single_qubit_gate (state : StateVector) (gate : GateMatrix)
    (qubit num_qubits : ℕ) : StateVector :=
  let dim := 1 <<< num_qubits
  let bit_position := num_qubits - 1 - qubit
  let step_size := 1 <<< bit_position
  (List.range dim).foldl (fun s i =>
    if (i >>> bit_position) &&& 1 = 1 then s
    else
      let idx0 := i
      let idx1 := i ||| step_size
      let a0 := s.getD idx0 ZERO
      let a1 := s.getD idx1 ZERO
      (s.set idx0 (complex_add (complex_mul ((gate.getD 0 []).getD 0 ZERO) a0)
            (complex_mul ((gate.getD 0 []).getD 1 ZERO) a1))).set idx1
        (complex_add (complex_mul ((gate.getD 1 []).getD 0 ZERO) a0)
          (complex_mul ((gate.getD 1 []).getD 1 ZERO) a1))) state

/-- `apply_two_qubit_gate`: walk `range(2^n)` with a `processed` bitmap
(the `bytearray(dim)`); at the first unprocessed index of each group of 4,
snapshot the 4 amplitudes, rewrite them through the 4×4 gate and mark the
group processed.  Python's `i & ~mask` (clear the two target bits) is
written `i ^^^ (i &&& mask)` on ℕ. -/
def apply_two_qubit_gate (state : StateVector) (gate : GateMatrix)
    (qubit0 qubit1 num_qubits : ℕ) : StateVector :=
  let dim := 1 <<< num_qubits
  let bit0 := num_qubits - 1 - qubit0
  let bit1 := num_qubits - 1 - qubit1
  let out := (List.range dim).foldl (fun sp i =>
    if sp.2.getD i 0 ≠ 0 then sp
    else
      let base := i ^^^ (i &&& ((1 <<< bit0) ||| (1 <<< bit1)))
      let indices := [base, base ||| (1 <<< bit1), base ||| (1 <<< bit0),
        base ||| (1 <<< bit0) ||| (1 <<< bit1)]
      let amps := indices.map (fun idx => sp.1.getD idx ZERO)
      let s' := (List.range 4).foldl (fun s2 r =>
        s2.set (indices.getD r 0)
          ((List.range 4).foldl (fun new_amp c =>
            complex_add new_amp
              (complex_mul ((gate.getD r []).getD c ZERO) (amps.getD c ZERO))) ZERO)) sp.1
      let processed' := indices.foldl (fun pr idx => pr.set idx 1) sp.2
      (s', processed')) (state, List.replicate dim (0 : ℕ))
  out.1

/-- `apply_grover_oracle`: `for t in targets: state[t] = complex_neg(state[t])`. -/
def apply_grover_oracle (state : StateVector) (targets : List ℕ) : StateVector :=
  targets.foldl (fun s t => s.set t (complex_neg (s.getD t ZERO))) state

/-- `apply_grover_diffusion`: accumulate the componentwise mean, then
replace every amplitude `a` by `2·mean − a` (the in-place `state[k] = ...`
loop reads each cell only before writing it, i.e. it is a map). -/
def apply_grover_diffusion (state : StateVector) : StateVector :=
  let n := state.length
  let mean_re := (state.foldl (fun acc amp => acc + amp.re) (0 : ℝ)) / n
  let mean_im := (state.foldl (fun acc amp => acc + amp.im) (0 : ℝ)) / n
  state.map (fun a => ⟨2 * mean_re - a.re, 2 * mean_im - a.im⟩)

-- ── Bloch sphere conversion ────────────────────────────────────────────

/-- `normalize_angle`: Python `angle % (2π)` is floored modulo
(`a - b·⌊a/b⌋`), followed by the defensive `if result < 0` fixup. -/
def normalize_angle (angle : ℝ) : ℝ :=
  let result := angle - 2 * Real.pi * ⌊angle / (2 * Real.pi)⌋
  if result < 0 then result + 2 * Real.pi else result

/-- `state_to_bloch_angles`: θ from the clamped `|α0|`, with the two
near-pole early returns, otherwise φ from the argument difference. -/
def state_to_bloch_angles (state : Cplx × Cplx) : ℝ × ℝ :=
  let alpha0 := state.1
  let alpha1 := state.2
  let abs_alpha0 := min 1 (max 0 (complex_abs alpha0))
  let theta := 2 * Real.arccos abs_alpha0
  if abs_alpha0 < EPSILON then (Real.pi, normalize_angle (complex_arg alpha1))
  else if complex_abs alpha1 < EPSILON then (0, 0)
  else (theta, normalize_angle (complex_arg alpha1 - complex_arg alpha0))

/-- `bloch_angles_to_state`: `(cos(θ/2), sin(θ/2)·e^{iφ})`. -/
def bloch_angles_to_state (theta phi : ℝ) : Cplx × Cplx :=
  (⟨Real.cos (theta / 2), 0⟩, complex_scale (Real.sin (theta / 2)) (complex_exp phi))

-- ── Tensor product ─────────────────────────────────────────────────────

/-- `matrix_tensor_product`: the source fills an `(m*p) × (n*q)` zero
matrix, writing `result[i*p+k][j*q+l] = a[i][j] * b[k][l]` for every
`i<m, j<n, k<p, l<q`; each entry `(r, c)` is written exactly once, with
`i = r/p, k = r%p, j = c/q, l = c%q`. -/
def matrix_tensor_product (a b : GateMatrix) : GateMatrix :=
  let m := a.length
  let n := (a.getD 0 []).length
  let p := b.length
  let q := (b.getD 0 []).length
  (List.range (m * p)).map (fun r =>
    (List.range (n * q)).map (fun c =>
      complex_mul ((a.getD (r / p) []).getD (c / q) ZERO)
        ((b.getD (r % p) []).getD (c % q) ZERO)))

-- ── The Born probability of an outcome (claim C5's wording) ────────────

/-- The probability of reading `outcome` on `qubit`: the sum of
`|amplitude|²` over the indices whose bit for the measured qubit equals
the given outcome. -/
def outcome_probability (state : StateVector) (qubit outcome num_qubits : ℕ) : ℝ :=
  ∑ k ∈ Finset.range state.length,
    if (k >>> (num_qubits - 1 - qubit)) &&& 1 = outcome
    then complex_abs_sq (state.getD k ZERO) else 0

-- ── The quantum_gates generator's single-qubit dispatch ────────────────

/-- The single-qubit branch of `quantum_gates.generate`: look the gate up
by name; `None` becomes the immediately raised, uncaught
`ValueError(f'Unknown gate: "{gate_name}"')`, embedded as `Except.error`. -/
def apply_named_single_qubit_gate (state : StateVector) (name : String) (angle : Option ℝ)
    (qubit num_qubits : ℕ) : Except String StateVector :=
  match get_standard_gate name angle with
  | none => Except.error ("Unknown gate: " ++ name)
  | some gate_matrix => Except.ok (apply_single_qubit_gate state gate_matrix qubit num_qubits)

-- ── Spec-side reference definitions for claim C3 ───────────────────────

/-- Reference (claim C3's words): the `2^n × 2^n` matrix
`I ⊗ ... ⊗ U ⊗ ... ⊗ I` with `U` at position `q`, built with
`matrix_tensor_product`. -/
def embed_single_qubit_gate (u : GateMatrix) (q n : ℕ) : GateMatrix :=
  (List.range n).foldl
    (fun acc k => matrix_tensor_product acc (if k = q then u else GATE_I)) [[ONE]]

/-- Reference (claim C3's words): the naive matrix–vector product. -/
def mat_vec_mul (m : GateMatrix) (v : StateVector) : StateVector :=
  m.map (fun row => ∑ c ∈ Finset.range v.length,
    complex_mul (row.getD c ZERO) (v.getD c ZERO))

/-- Entry of a matrix as a list of rows, `ZERO` outside. -/
def mentry (m : GateMatrix) (r c : ℕ) : Cplx := (m.getD r []).getD c ZERO

/-- The entrywise recursion satisfied by the iterated tensor product of
2×2 factors: peel the lowest bit of row and column index. -/
def kron_chain_entry (g : ℕ → GateMatrix) : ℕ → ℕ → ℕ → Cplx
  | 0, _, _ => ONE
  | t + 1, r, c => complex_mul (kron_chain_entry g t (r / 2) (c / 2)) (mentry (g t) (r % 2) (c % 2))

/-- The loop body of `apply_single_qubit_gate`, with its `let`s inlined
(definitionally equal to the fold body of the source translation). -/
def single_gate_step (g : GateMatrix) (bp : ℕ) (s : StateVector) (i : ℕ) : StateVector :=
  if (i >>> bp) &&& 1 = 1 then s
  else
    (s.set i (complex_add (complex_mul (mentry g 0 0) (s.getD i ZERO))
        (complex_mul (mentry g 0 1) (s.getD (i ||| 1 <<< bp) ZERO)))).set (i ||| 1 <<< bp)
      (complex_add (complex_mul (mentry g 1 0) (s.getD i ZERO))
        (complex_mul (mentry g 1 1) (s.getD (i ||| 1 <<< bp) ZERO)))

/-- The pairwise 2×2 update that `apply_single_qubit_gate` performs: the
new amplitude at `j` combines the old pair `(j with bit clear, j with bit
set)` through row 0 or row 1 of the gate according to `j`'s target bit. -/
def single_gate_amp (g : GateMatrix) (bp : ℕ) (s : StateVector) (j : ℕ) : Cplx :=
  if j.testBit bp then
    complex_add (complex_mul (mentry g 1 0) (s.getD (j - 2 ^ bp) ZERO))
      (complex_mul (mentry g 1 1) (s.getD j ZERO))
  else
    complex_add (complex_mul (mentry g 0 0) (s.getD j ZERO))
      (complex_mul (mentry g 0 1) (s.getD (j + 2 ^ bp) ZERO))

/-- Python's `i & ~((1 << bit0) | (1 << bit1))` — the group leader of `i`:
`i` with both target bits cleared (written `i ^^^ (i &&& mask)` on ℕ). -/
def two_gate_base (bit0 bit1 i : ℕ) : ℕ :=
  i ^^^ (i &&& ((1 <<< bit0) ||| (1 <<< bit1)))

/-- The `c`-th member (`c < 4`) of the group led by `b`: the source's
`indices` list entry `c`, i.e. `b` with `bit0` set when `c ∈ {2,3}` and
`bit1` set when `c` is odd. -/
def two_gate_member (bit0 bit1 b c : ℕ) : ℕ :=
  b + c / 2 * 2 ^ bit0 + c % 2 * 2 ^ bit1

/-- The gate row that rewrites index `j`: `2·(bit at bit0) + (bit at bit1)`. -/
def two_gate_row (bit0 bit1 j : ℕ) : ℕ :=
  2 * (j.testBit bit0).toNat + (j.testBit bit1).toNat

/-- The pointwise result of `apply_two_qubit_gate`: each index receives
row `two_gate_row` of the 4×4 transform applied to its group's four
original amplitudes. -/
def two_gate_amp (g : GateMatrix) (bit0 bit1 : ℕ) (s : StateVector) (j : ℕ) : Cplx :=
  ∑ c ∈ Finset.range 4,
    complex_mul (mentry g (two_gate_row bit0 bit1 j) c)
      (s.getD (two_gate_member bit0 bit1 (two_gate_base bit0 bit1 j) c) ZERO)

/-- Row `r` of the 4×4 transform applied to the four snapshot amplitudes
of the group of `i` (the unrolled inner `for c in range(4)` sum). -/
def two_gate_vals (g : GateMatrix) (bit0 bit1 : ℕ) (s : StateVector) (i r : ℕ) : Cplx :=
  complex_add (complex_add (complex_add (complex_add ZERO
    (complex_mul ((g.getD r []).getD 0 ZERO)
      (s.getD (two_gate_base bit0 bit1 i) ZERO)))
    (complex_mul ((g.getD r []).getD 1 ZERO)
      (s.getD (two_gate_base bit0 bit1 i ||| 1 <<< bit1) ZERO)))
    (complex_mul ((g.getD r []).getD 2 ZERO)
      (s.getD (two_gate_base bit0 bit1 i ||| 1 <<< bit0) ZERO)))
    (complex_mul ((g.getD r []).getD 3 ZERO)
      (s.getD (two_gate_base bit0 bit1 i ||| 1 <<< bit0 ||| 1 <<< bit1) ZERO))

/-- The loop body of `apply_two_qubit_gate` (state vector together with
the `processed` bitmap), with its `let`s in source shape. -/
def two_gate_step (g : GateMatrix) (bit0 bit1 : ℕ) (sp : StateVector × List ℕ) (i : ℕ) :
    StateVector × List ℕ :=
  if sp.2.getD i 0 ≠ 0 then sp
  else
    let base := i ^^^ (i &&& ((1 <<< bit0) ||| (1 <<< bit1)))
    let indices := [base, base ||| (1 <<< bit1), base ||| (1 <<< bit0),
      base ||| (1 <<< bit0) ||| (1 <<< bit1)]
    let amps := indices.map (fun idx => sp.1.getD idx ZERO)
    let s' := (List.range 4).foldl (fun s2 r =>
      s2.set (indices.getD r 0)
        ((List.range 4).foldl (fun new_amp c =>
          complex_add new_amp
            (complex_mul ((g.getD r []).getD c ZERO) (amps.getD c ZERO))) ZERO)) sp.1
    let processed' := indices.foldl (fun pr idx => pr.set idx 1) sp.2
    (s', processed')

-- ── The Grover generator's pipeline ────────────────────────────────────

/-- `r = math.floor((math.pi / 4) * math.sqrt(n / m))` with `n = 2^numQubits`,
`m = len(targets)` (grovers_search.generate, line 56). -/
def grover_iterations (num_qubits m : ℕ) : ℤ :=
  ⌊Real.pi / 4 * Real.sqrt (((1 <<< num_qubits : ℕ) : ℝ) / (m : ℝ))⌋

/-- The state pipeline of `grovers_search.generate`: start from `|0...0⟩`,
Hadamard every qubit, then alternate oracle and diffusion exactly `r`
times. -/
def grover_state (num_qubits : ℕ) (targets : List ℕ) : StateVector :=
  let state1 := (List.range num_qubits).foldl
    (fun s q => apply_single_qubit_gate s GATE_H q num_qubits) (create_zero_state num_qubits)
  let r := (grover_iterations num_qubits targets.length).toNat
  (fun s => apply_grover_diffusion (apply_grover_oracle s targets))^[r] state1

-- ── The teleportation generator's pipeline ─────────────────────────────

/-- The state pipeline of `quantum_teleportation.generate`: build
`|ψ⟩⊗|00⟩` from the Bloch angles, Bell pair `H(1)`, `CNOT(1,2)`, Alice's
`CNOT(0,1)` and `H(0)`, project qubit 0 to `m0` and qubit 1 to `m1`
(failures propagate as `none`), then Bob's correction: `X` on qubit 2 if
`m1 = 1`, then `Z` if `m0 = 1`. -/
def teleport_final_state (theta phi : ℝ) (m0 m1 : ℕ) : Option StateVector :=
  let alpha := bloch_angles_to_state theta phi
  let state0 := ((create_zero_state 3).set 0 alpha.1).set 4 alpha.2
  let state1 := apply_single_qubit_gate state0 GATE_H 1 3
  let state2 := apply_two_qubit_gate state1 GATE_CNOT 1 2 3
  let state3 := apply_two_qubit_gate state2 GATE_CNOT 0 1 3
  let state4 := apply_single_qubit_gate state3 GATE_H 0 3
  match project_and_normalize state4 0 m0 3 with
  | none => none
  | some state5 =>
    match project_and_normalize state5 1 m1 3 with
    | none => none
    | some state6 =>
      some (if m0 = 0 ∧ m1 = 0 then state6
        else if m0 = 0 ∧ m1 = 1 then apply_single_qubit_gate state6 GATE_X 2 3
        else if m0 = 1 ∧ m1 = 0 then apply_single_qubit_gate state6 GATE_Z 2 3
        else apply_single_qubit_gate (apply_single_qubit_gate state6 GATE_X 2 3) GATE_Z 2 3)

/-- The terminal verification step of `quantum_teleportation.generate`:
read Bob's two surviving amplitudes at `base = m0<<2 | m1<<1` and
`base | 1` and convert them to Bloch angles. -/
def teleport_bob_angles (theta phi : ℝ) (m0 m1 : ℕ) : Option (ℝ × ℝ) :=
  match teleport_final_state theta phi m0 m1 with
  | none => none
  | some s =>
    let base := (m0 <<< 2) ||| (m1 <<< 1)
    some (state_to_bloch_angles (s.getD base ZERO, s.getD (base ||| 1) ZERO))

-- ── Generic list helpers ───────────────────────────────────────────────

/-- A running-total fold is the start value plus the list sum. -/
theorem foldl_add_eq {α M : Type*} [AddCommMonoid M] (f : α → M) :
    ∀ (l : List α) (c : M), l.foldl (fun acc x => acc + f x) c = c + (l.map f).sum := by
  intro l
  induction l with
  | nil => simp
  | cons a t ih => intro c; simp [ih, add_assoc]

theorem enumFrom_map_sum {α M : Type*} [AddCommMonoid M] (h : ℕ → α → M) (d : α) :
    ∀ (l : List α) (j : ℕ),
      ((List.enumFrom j l).map (fun ka => h ka.1 ka.2)).sum
        = ∑ k ∈ Finset.range l.length, h (j + k) (l.getD k d) := by
  intro l
  induction l with
  | nil => simp
  | cons a t ih =>
    intro j
    rw [List.enumFrom_cons, List.map_cons, List.sum_cons, ih (j + 1),
      List.length_cons, Finset.sum_range_succ']
    simp only [List.getD_cons_succ, List.getD_cons_zero, add_zero, add_comm]
    congr 1
    · refine Finset.sum_congr rfl fun k _ => ?_
      congr 1
      omega

theorem enum_map_sum {α M : Type*} [AddCommMonoid M] (h : ℕ → α → M) (d : α) (l : List α) :
    (l.enum.map (fun ka => h ka.1 ka.2)).sum
      = ∑ k ∈ Finset.range l.length, h k (l.getD k d) := by
  simpa using enumFrom_map_sum h d l 0

theorem getD_enum_map {α : Type*} (f : ℕ × α → α) (l : List α) (d : α) (k : ℕ)
    (hk : k < l.length) : (l.enum.map f).getD k d = f (k, l.getD k d) := by
  rw [List.getD_eq_getElem _ _ (by simpa using hk), List.getElem_map, List.getElem_enum,
    List.getD_eq_getElem _ _ hk]

theorem project_prob_eq (state : StateVector) (qubit outcome num_qubits : ℕ) :
    state.enum.foldl
      (fun p ka => if (ka.1 >>> (num_qubits - 1 - qubit)) &&& 1 = outcome
        then p + complex_abs_sq ka.2 else p) 0
      = outcome_probability state qubit outcome num_qubits := by
  have hbody : (fun (p : ℝ) (ka : ℕ × Cplx) =>
      if (ka.1 >>> (num_qubits - 1 - qubit)) &&& 1 = outcome
      then p + complex_abs_sq ka.2 else p)
      = fun p ka => p + (if (ka.1 >>> (num_qubits - 1 - qubit)) &&& 1 = outcome
        then complex_abs_sq ka.2 else 0) := by
    funext p ka
    split_ifs
    · rfl
    · exact (add_zero p).symm
  rw [hbody, foldl_add_eq (fun ka : ℕ × Cplx =>
      if (ka.1 >>> (num_qubits - 1 - qubit)) &&& 1 = outcome
      then complex_abs_sq ka.2 else 0) _ 0, zero_add]
  exact enum_map_sum (fun k a => if (k >>> (num_qubits - 1 - qubit)) &&& 1 = outcome
    then complex_abs_sq a else 0) ZERO state

/-- C5: `project_and_normalize` fails (the `ZeroProbabilityOutcome` /
`ValueError`, embedded as `none`) exactly when the Born probability of the
requested outcome is below `EPSILON = 1e-10`.  (In this pure embedding the
input vector is untouched by construction: the source only reads `state`
and appends to a freshly built `new_state`.) -/
theorem projection_error_iff (state : StateVector) (qubit outcome num_qubits : ℕ) :
    project_and_normalize state qubit outcome num_qubits = none
      ↔ outcome_probability state qubit outcome num_qubits < EPSILON := by
  simp only [project_and_normalize]
  rw [project_prob_eq]
  by_cases h : outcome_probability state qubit outcome num_qubits < EPSILON
  · rw [if_pos h]; simpa using h
  · rw [if_neg h]; simpa using h

/-- C4: on any state whose outcome probability is at least `1e-10`,
`project_and_normalize` succeeds; the result has norm² exactly 1, is
`(0, 0)` wherever the measured qubit's bit differs from the outcome, and
elsewhere is the original amplitude rescaled by `1/√P(outcome)`. -/
theorem projection_output_normalized (state : StateVector) (qubit outcome num_qubits : ℕ)
    (_hlen : state.length = 2 ^ num_qubits) (_hq : qubit < num_qubits) (_hout : outcome ≤ 1)
    (hprob : EPSILON ≤ outcome_probability state qubit outcome num_qubits) :
    ∃ v, project_and_normalize state qubit outcome num_qubits = some v ∧
      state_vector_norm_sq v = 1 ∧ v.length = state.length ∧
      ∀ k < state.length,
        ((k >>> (num_qubits - 1 - qubit)) &&& 1 ≠ outcome → v.getD k ZERO = ZERO) ∧
        ((k >>> (num_qubits - 1 - qubit)) &&& 1 = outcome → v.getD k ZERO =
          complex_scale
            (1 / Real.sqrt (outcome_probability state qubit outcome num_qubits))
            (state.getD k ZERO)) := by
  have hP0 : (0 : ℝ) < outcome_probability state qubit outcome num_qubits := by
    have : (0 : ℝ) < EPSILON := by norm_num [EPSILON]
    linarith
  refine ⟨(state.enum.map (fun ka =>
    if (ka.1 >>> (num_qubits - 1 - qubit)) &&& 1 = outcome
    then complex_scale
      (1 / Real.sqrt (outcome_probability state qubit outcome num_qubits)) ka.2
    else ZERO)), ?_, ?_, ?_, ?_⟩
  · simp only [project_and_normalize]
    rw [project_prob_eq, if_neg (by linarith)]
  · -- norm² of the projected vector is exactly 1
    unfold state_vector_norm_sq
    rw [foldl_add_eq complex_abs_sq _ 0, zero_add, List.map_map]
    have hcomp : ((fun amp => complex_abs_sq amp) ∘ fun ka : ℕ × Cplx =>
        if (ka.1 >>> (num_qubits - 1 - qubit)) &&& 1 = outcome
        then complex_scale
          (1 / Real.sqrt (outcome_probability state qubit outcome num_qubits)) ka.2
        else ZERO)
        = fun ka : ℕ × Cplx =>
          ((1 / Real.sqrt (outcome_probability state qubit outcome num_qubits)) *
            (1 / Real.sqrt (outcome_probability state qubit outcome num_qubits)) *
            (if (ka.1 >>> (num_qubits - 1 - qubit)) &&& 1 = outcome
             then complex_abs_sq ka.2 else 0)) := by
      funext ka
      simp only [Function.comp_apply]
      split_ifs
      · simp only [complex_abs_sq, complex_scale]; ring
      · simp [complex_abs_sq, ZERO]
    rw [hcomp, enum_map_sum (fun k a =>
      (1 / Real.sqrt (outcome_probability state qubit outcome num_qubits)) *
      (1 / Real.sqrt (outcome_probability state qubit outcome num_qubits)) *
      (if (k >>> (num_qubits - 1 - qubit)) &&& 1 = outcome
       then complex_abs_sq a else 0)) ZERO, ← Finset.mul_sum]
    have hsum : (∑ k ∈ Finset.range state.length,
        if (k >>> (num_qubits - 1 - qubit)) &&& 1 = outcome
        then complex_abs_sq (state.getD k ZERO) else 0)
        = outcome_probability state qubit outcome num_qubits := rfl
    rw [hsum]
    have hs : Real.sqrt (outcome_probability state qubit outcome num_qubits) *
        Real.sqrt (outcome_probability state qubit outcome num_qubits)
        = outcome_probability state qubit outcome num_qubits := Real.mul_self_sqrt hP0.le
    have hsne : Real.sqrt (outcome_probability state qubit outcome num_qubits) ≠ 0 := by
      have := Real.sqrt_pos.mpr hP0
      linarith
    field_simp
  · simp
  · intro k hk
    constructor
    · intro hne
      rw [getD_enum_map _ _ _ _ hk, if_neg hne]
    · intro heq
      rw [getD_enum_map _ _ _ _ hk, if_pos heq]

/-- Witness: projecting `[1, 0]` onto qubit 0 = 0 keeps the normalized state. -/
theorem projection_output_normalized_witness :
    (List.length ([⟨1, 0⟩, ⟨0, 0⟩] : StateVector) = 2 ^ 1 ∧ (0 : ℕ) < 1 ∧ (0 : ℕ) ≤ 1 ∧
      EPSILON ≤ outcome_probability [⟨1, 0⟩, ⟨0, 0⟩] 0 0 1) ∧
    ∃ v, project_and_normalize [⟨1, 0⟩, ⟨0, 0⟩] 0 0 1 = some v ∧
      state_vector_norm_sq v = 1 ∧
      v.length = List.length ([⟨1, 0⟩, ⟨0, 0⟩] : StateVector) ∧
      ∀ k < List.length ([⟨1, 0⟩, ⟨0, 0⟩] : StateVector),
        ((k >>> (1 - 1 - 0)) &&& 1 ≠ 0 → v.getD k ZERO = ZERO) ∧
        ((k >>> (1 - 1 - 0)) &&& 1 = 0 → v.getD k ZERO =
          complex_scale (1 / Real.sqrt (outcome_probability [⟨1, 0⟩, ⟨0, 0⟩] 0 0 1))
            (([⟨1, 0⟩, ⟨0, 0⟩] : StateVector).getD k ZERO)) := by
  have hprob : EPSILON ≤ outcome_probability [⟨1, 0⟩, ⟨0, 0⟩] 0 0 1 := by
    norm_num [outcome_probability, Finset.sum_range_succ, complex_abs_sq, EPSILON,
      List.getD_cons_zero, List.getD_cons_succ]
  exact ⟨⟨by norm_num, by norm_num, by norm_num, hprob⟩,
    projection_output_normalized [⟨1, 0⟩, ⟨0, 0⟩] 0 0 1 (by norm_num) (by norm_num)
      (by norm_num) hprob⟩

-- ── Set/getD helpers ───────────────────────────────────────────────────

theorem getD_set_eq {α : Type*} (l : List α) (i : ℕ) (v d : α) (h : i < l.length) :
    (l.set i v).getD i d = v := by
  rw [List.getD_eq_getElem?_getD, List.getElem?_set_eq_of_lt v h]
  rfl

theorem getD_set_ne {α : Type*} (l : List α) {i j : ℕ} (v d : α) (h : i ≠ j) :
    (l.set i v).getD j d = l.getD j d := by
  rw [List.getD_eq_getElem?_getD, List.getElem?_set_ne h, ← List.getD_eq_getElem?_getD]

-- ── C7: the Grover oracle ──────────────────────────────────────────────

theorem abs_sq_neg (a : Cplx) : complex_abs_sq (complex_neg a) = complex_abs_sq a := by
  simp only [complex_abs_sq, complex_neg]
  ring

theorem oracle_getD (targets : List ℕ) : ∀ state : StateVector, targets.Nodup →
    (∀ t ∈ targets, t < state.length) →
    (apply_grover_oracle state targets).length = state.length ∧
    ∀ j, (apply_grover_oracle state targets).getD j ZERO =
      if j ∈ targets then complex_neg (state.getD j ZERO) else state.getD j ZERO := by
  induction targets with
  | nil => intro state _ _; simp [apply_grover_oracle]
  | cons t ts ih =>
    intro state hnd hval
    have ht : t < state.length := hval t (List.mem_cons_self t ts)
    have hstep : apply_grover_oracle state (t :: ts)
        = apply_grover_oracle (state.set t (complex_neg (state.getD t ZERO))) ts := rfl
    have hnd' : ts.Nodup := (List.nodup_cons.mp hnd).2
    have htn : t ∉ ts := (List.nodup_cons.mp hnd).1
    have hval' : ∀ x ∈ ts, x < (state.set t (complex_neg (state.getD t ZERO))).length := by
      intro x hx
      simpa using hval x (List.mem_cons_of_mem t hx)
    obtain ⟨ihlen, ihget⟩ := ih (state.set t (complex_neg (state.getD t ZERO))) hnd' hval'
    constructor
    · rw [hstep, ihlen]; simp
    · intro j
      rw [hstep, ihget j]
      by_cases hjt : j = t
      · subst hjt
        have : j ∉ ts := htn
        rw [if_neg this, if_pos (List.mem_cons_self j ts), getD_set_eq _ _ _ _ ht]
      · rw [getD_set_ne _ _ _ (fun h => hjt h.symm)]
        by_cases hjs : j ∈ ts
        · rw [if_pos hjs, if_pos (List.mem_cons_of_mem t hjs)]
        · rw [if_neg hjs, if_neg (by simp [hjs, hjt])]

/-- C7: with distinct in-range targets, the Grover oracle negates exactly
the target amplitudes, leaves every other amplitude unchanged, and leaves
the measurement probabilities unchanged. -/
theorem oracle_negates_targets (state : StateVector) (targets : List ℕ) (num_qubits : ℕ)
    (hlen : state.length = 2 ^ num_qubits) (hnd : targets.Nodup)
    (hval : ∀ t ∈ targets, t < 2 ^ num_qubits) :
    (apply_grover_oracle state targets).length = state.length ∧
    (∀ t ∈ targets, (apply_grover_oracle state targets).getD t ZERO
      = complex_neg (state.getD t ZERO)) ∧
    (∀ j ∉ targets, (apply_grover_oracle state targets).getD j ZERO = state.getD j ZERO) ∧
    measurement_probabilities (apply_grover_oracle state targets)
      = measurement_probabilities state := by
  have hval' : ∀ t ∈ targets, t < state.length := fun t htv => hlen ▸ hval t htv
  obtain ⟨hl, hget⟩ := oracle_getD targets state hnd hval'
  refine ⟨hl, fun t htv => by rw [hget t, if_pos htv],
    fun j hj => by rw [hget j, if_neg hj], ?_⟩
  apply List.ext_getElem (by simp [measurement_probabilities, hl])
  intro i h1 h2
  simp only [measurement_probabilities, List.getElem_map]
  have hi : i < state.length := by simpa [measurement_probabilities] using h2
  have hi' : i < (apply_grover_oracle state targets).length := hl ▸ hi
  have e1 : (apply_grover_oracle state targets)[i] =
      (apply_grover_oracle state targets).getD i ZERO :=
    (List.getD_eq_getElem _ _ hi').symm
  have e2 : state[i] = state.getD i ZERO := (List.getD_eq_getElem _ _ hi).symm
  rw [e1, e2, hget i]
  by_cases hit : i ∈ targets
  · rw [if_pos hit, abs_sq_neg]
  · rw [if_neg hit]

/-- Witness for the oracle theorem at a Bell-like state. -/
theorem oracle_negates_targets_witness :
    (List.length ([⟨1, 0⟩, ⟨0, 0⟩, ⟨0, 0⟩, ⟨0, 0⟩] : StateVector) = 2 ^ 2 ∧
      List.Nodup [3] ∧ ∀ t ∈ [3], t < 2 ^ 2) ∧
    ((apply_grover_oracle [⟨1, 0⟩, ⟨0, 0⟩, ⟨0, 0⟩, ⟨0, 0⟩] [3]).length
        = List.length ([⟨1, 0⟩, ⟨0, 0⟩, ⟨0, 0⟩, ⟨0, 0⟩] : StateVector) ∧
      (∀ t ∈ [3], (apply_grover_oracle [⟨1, 0⟩, ⟨0, 0⟩, ⟨0, 0⟩, ⟨0, 0⟩] [3]).getD t ZERO
        = complex_neg (([⟨1, 0⟩, ⟨0, 0⟩, ⟨0, 0⟩, ⟨0, 0⟩] : StateVector).getD t ZERO)) ∧
      (∀ j ∉ [3], (apply_grover_oracle [⟨1, 0⟩, ⟨0, 0⟩, ⟨0, 0⟩, ⟨0, 0⟩] [3]).getD j ZERO
        = ([⟨1, 0⟩, ⟨0, 0⟩, ⟨0, 0⟩, ⟨0, 0⟩] : StateVector).getD j ZERO) ∧
      measurement_probabilities (apply_grover_oracle [⟨1, 0⟩, ⟨0, 0⟩, ⟨0, 0⟩, ⟨0, 0⟩] [3])
        = measurement_probabilities [⟨1, 0⟩, ⟨0, 0⟩, ⟨0, 0⟩, ⟨0, 0⟩]) := by
  refine ⟨⟨by norm_num, by simp, by simp⟩, ?_⟩
  exact oracle_negates_targets [⟨1, 0⟩, ⟨0, 0⟩, ⟨0, 0⟩, ⟨0, 0⟩] [3] 2 (by norm_num)
    (by simp) (by simp)

-- ── C10: the diffusion operator preserves the norm ─────────────────────

theorem sum_reflect_sq (p q : ℝ) :
    ∀ l : List Cplx,
      (l.map (fun a => (p - a.re) * (p - a.re) + (q - a.im) * (q - a.im))).sum
        = l.length * (p * p + q * q) - 2 * p * (l.map Complex.re).sum
          - 2 * q * (l.map Complex.im).sum + (l.map complex_abs_sq).sum := by
  intro l
  induction l with
  | nil => simp
  | cons a t ih =>
    simp only [List.map_cons, List.sum_cons, List.length_cons, ih, complex_abs_sq]
    push_cast
    ring

/-- C10: reflecting every amplitude about the componentwise mean leaves
the norm² unchanged, so a normalized state stays normalized through
`apply_grover_diffusion` (what the generator's `assert_normalized` after
every diffusion relies on). -/
theorem diffusion_preserves_norm (state : StateVector) (hne : state ≠ []) :
    state_vector_norm_sq (apply_grover_diffusion state)
      = state_vector_norm_sq state := by
  have hn : (state.length : ℝ) ≠ 0 := by
    simpa using fun h => hne (List.length_eq_zero.mp h)
  simp only [apply_grover_diffusion, state_vector_norm_sq]
  rw [foldl_add_eq complex_abs_sq _ 0, foldl_add_eq complex_abs_sq _ 0,
    foldl_add_eq Complex.re _ 0, foldl_add_eq Complex.im _ 0]
  simp only [zero_add, List.map_map]
  have hcomp : ((fun amp => complex_abs_sq amp) ∘ fun a : Cplx =>
      (⟨2 * ((state.map Complex.re).sum / state.length) - a.re,
        2 * ((state.map Complex.im).sum / state.length) - a.im⟩ : Cplx))
      = fun a : Cplx =>
        (2 * ((state.map Complex.re).sum / state.length) - a.re) *
          (2 * ((state.map Complex.re).sum / state.length) - a.re) +
        (2 * ((state.map Complex.im).sum / state.length) - a.im) *
          (2 * ((state.map Complex.im).sum / state.length) - a.im) := by
    funext a
    simp [complex_abs_sq]
  rw [hcomp, sum_reflect_sq]
  field_simp
  ring

-- ── C9: the gate-name lookup and its failure path ──────────────────────

/-- C9: `get_standard_gate` returns `None` for every name outside the ten
recognized ones, and for `Rx`/`Ry`/`Rz` without an angle; every recognized
lookup returns its gate matrix; and the generator's single-qubit dispatch
turns a `None` lookup into an immediately raised, propagated `UnknownGate`
error while a successful lookup applies the gate. -/
theorem gate_lookup_contract :
    (∀ name : String,
      name ∉ (["I", "X", "Y", "Z", "H", "S", "T", "Rx", "Ry", "Rz"] : List String) →
      ∀ angle, get_standard_gate name angle = none) ∧
    (∀ name ∈ (["Rx", "Ry", "Rz"] : List String), get_standard_gate name none = none) ∧
    ((∀ a, get_standard_gate "I" a = some GATE_I) ∧
      (∀ a, get_standard_gate "X" a = some GATE_X) ∧
      (∀ a, get_standard_gate "Y" a = some GATE_Y) ∧
      (∀ a, get_standard_gate "Z" a = some GATE_Z) ∧
      (∀ a, get_standard_gate "H" a = some GATE_H) ∧
      (∀ a, get_standard_gate "S" a = some GATE_S) ∧
      (∀ a, get_standard_gate "T" a = some GATE_T) ∧
      (∀ x, get_standard_gate "Rx" (some x) = some (gate_rx x)) ∧
      (∀ x, get_standard_gate "Ry" (some x) = some (gate_ry x)) ∧
      (∀ x, get_standard_gate "Rz" (some x) = some (gate_rz x))) ∧
    (∀ state name angle qubit n, get_standard_gate name angle = none →
      apply_named_single_qubit_gate state name angle qubit n
        = Except.error ("Unknown gate: " ++ name)) ∧
    (∀ state name angle qubit n g, get_standard_gate name angle = some g →
      apply_named_single_qubit_gate state name angle qubit n
        = Except.ok (apply_single_qubit_gate state g qubit n)) := by
  refine ⟨?_, ?_, ?_, ?_, ?_⟩
  · intro name hname angle
    simp only [List.mem_cons, List.not_mem_nil, or_false, not_or] at hname
    obtain ⟨h1, h2, h3, h4, h5, h6, h7, h8, h9, h10⟩ := hname
    simp only [get_standard_gate, if_neg h1, if_neg h2, if_neg h3, if_neg h4, if_neg h5,
      if_neg h6, if_neg h7, if_neg h8, if_neg h9, if_neg h10]
  · intro name hname
    simp only [List.mem_cons, List.not_mem_nil, or_false] at hname
    rcases hname with h | h | h <;> subst h <;> simp [get_standard_gate]
  · refine ⟨fun a => ?_, fun a => ?_, fun a => ?_, fun a => ?_, fun a => ?_,
      fun a => ?_, fun a => ?_, fun x => ?_, fun x => ?_, fun x => ?_⟩ <;>
      simp [get_standard_gate]
  · intro state name angle qubit n h
    simp only [apply_named_single_qubit_gate, h]
  · intro state name angle qubit n g h
    simp only [apply_named_single_qubit_gate, h]

/-- Witness: an unrecognized name and a missing angle both fail, a
recognized name succeeds, and the dispatch propagates the failure. -/
theorem gate_lookup_contract_witness :
    ("Q" ∉ (["I", "X", "Y", "Z", "H", "S", "T", "Rx", "Ry", "Rz"] : List String) ∧
      "Rx" ∈ (["Rx", "Ry", "Rz"] : List String)) ∧
    get_standard_gate "Q" none = none ∧
    get_standard_gate "Rx" none = none ∧
    get_standard_gate "H" none = some GATE_H ∧
    apply_named_single_qubit_gate [⟨1, 0⟩, ⟨0, 0⟩] "Q" none 0 1
      = Except.error ("Unknown gate: " ++ "Q") := by
  have hmem : "Q" ∉ (["I", "X", "Y", "Z", "H", "S", "T", "Rx", "Ry", "Rz"] : List String) := by
    simp
  refine ⟨⟨hmem, by simp⟩, gate_lookup_contract.1 "Q" hmem none,
    gate_lookup_contract.2.1 "Rx" (by simp), gate_lookup_contract.2.2.1.2.2.2.2.1 none,
    gate_lookup_contract.2.2.2.1 [⟨1, 0⟩, ⟨0, 0⟩] "Q" none 0 1
      (gate_lookup_contract.1 "Q" hmem none)⟩

/-- Witness: diffusion on the singleton state `[1]` preserves the norm². -/
theorem diffusion_preserves_norm_witness :
    ([⟨1, 0⟩] : StateVector) ≠ [] ∧
    state_vector_norm_sq (apply_grover_diffusion [⟨1, 0⟩])
      = state_vector_norm_sq [⟨1, 0⟩] :=
  ⟨by simp, diffusion_preserves_norm [⟨1, 0⟩] (by simp)⟩

-- ── Nat bit-arithmetic helpers ─────────────────────────────────────────

theorem shift_and_one (j b : ℕ) : (j >>> b) &&& 1 = if j.testBit b then 1 else 0 := by
  rcases Nat.mod_two_eq_zero_or_one (j / 2 ^ b) with h | h <;>
    simp [Nat.shiftRight_eq_div_pow, Nat.and_one_is_mod, Nat.testBit_to_div_mod, h]

theorem lor_two_pow {j b : ℕ} (h : j.testBit b = false) : j ||| 2 ^ b = j + 2 ^ b := by
  obtain ⟨a, c, hdecomp, hc2⟩ : ∃ a c, j = 2 ^ (b + 1) * a + c ∧ c < 2 ^ (b + 1) :=
    ⟨j / 2 ^ (b + 1), j % 2 ^ (b + 1), (Nat.div_add_mod j _).symm,
      Nat.mod_lt _ (Nat.two_pow_pos _)⟩
  subst hdecomp
  have hpow : (2 : ℕ) ^ (b + 1) = 2 ^ b + 2 ^ b := by rw [pow_succ]; ring
  rw [Nat.testBit_mul_pow_two_add a hc2 b, if_pos (by omega)] at h
  have hcb : c < 2 ^ b := by
    by_contra hge
    push_neg at hge
    have hx : c - 2 ^ b < 2 ^ b := by omega
    have he : 2 ^ b + (c - 2 ^ b) = c := by omega
    have hbit := Nat.testBit_two_pow_add_eq (c - 2 ^ b) b
    rw [he, h, Nat.testBit_lt_two_pow hx] at hbit
    simp at hbit
  have htc : c.testBit b = false := Nat.testBit_lt_two_pow hcb
  have hbitj : ∀ i, (2 ^ (b + 1) * a + c).testBit i
      = if i < b + 1 then c.testBit i else a.testBit (i - (b + 1)) :=
    Nat.testBit_mul_pow_two_add a hc2
  have hbitsum : ∀ i, (2 ^ (b + 1) * a + c + 2 ^ b).testBit i
      = if i < b + 1 then (2 ^ b + c).testBit i else a.testBit (i - (b + 1)) := by
    intro i
    have hrw : 2 ^ (b + 1) * a + c + 2 ^ b = 2 ^ (b + 1) * a + (2 ^ b + c) := by omega
    rw [hrw]
    exact Nat.testBit_mul_pow_two_add a (by omega) i
  apply Nat.eq_of_testBit_eq
  intro i
  rw [Nat.testBit_or, hbitj i, hbitsum i]
  rcases Nat.lt_trichotomy i b with hib | hib | hib
  · rw [Nat.testBit_two_pow_of_ne (by omega : b ≠ i), if_pos (by omega), if_pos (by omega),
      Nat.testBit_two_pow_add_gt hib]
    simp
  · subst hib
    rw [Nat.testBit_two_pow_self, if_pos (by omega), if_pos (by omega),
      Nat.testBit_two_pow_add_eq, htc]
    simp
  · rw [Nat.testBit_two_pow_of_ne (by omega : b ≠ i), if_neg (by omega), if_neg (by omega)]
    simp

theorem testBit_add_two_pow_self {j b : ℕ} (h : j.testBit b = false) :
    (j + 2 ^ b).testBit b = true := by
  rw [add_comm, Nat.testBit_two_pow_add_eq, h]
  rfl

theorem testBit_add_two_pow_ne {j b i : ℕ} (h : j.testBit b = false) (hne : i ≠ b) :
    (j + 2 ^ b).testBit i = j.testBit i := by
  rw [← lor_two_pow h, Nat.testBit_or, Nat.testBit_two_pow_of_ne (fun e => hne e.symm),
    Bool.or_false]

theorem exists_of_testBit_true {j b : ℕ} (h : j.testBit b = true) :
    ∃ j', j = j' + 2 ^ b ∧ j'.testBit b = false := by
  have hge : 2 ^ b ≤ j := by
    by_contra hlt
    rw [Nat.testBit_lt_two_pow (by omega)] at h
    exact Bool.false_ne_true h
  refine ⟨j - 2 ^ b, by omega, ?_⟩
  have e : 2 ^ b + (j - 2 ^ b) = j := by omega
  have hb := Nat.testBit_two_pow_add_eq (j - 2 ^ b) b
  rw [e, h] at hb
  simpa using hb.symm

theorem getD_range_map {α : Type*} (f : ℕ → α) (d : α) (t r : ℕ) (hr : r < t) :
    ((List.range t).map f).getD r d = f r := by
  rw [List.getD_eq_getElem _ _ (by simpa using hr), List.getElem_map, List.getElem_range]

theorem div_pow_mod_two_eq (x i : ℕ) : x / 2 ^ i % 2 = if x.testBit i then 1 else 0 := by
  rcases Nat.mod_two_eq_zero_or_one (x / 2 ^ i) with h | h <;>
    simp [Nat.testBit_to_div_mod, h]

-- ── Pointwise characterization of apply_single_qubit_gate ──────────────

theorem single_fold_inv (g : GateMatrix) (bp n : ℕ) (hbpn : bp < n) (s : StateVector)
    (hs : s.length = 2 ^ n) :
    ∀ t, t ≤ 2 ^ n →
      ((List.range t).foldl (single_gate_step g bp) s).length = 2 ^ n ∧
      ∀ j', j'.testBit bp = false → j' + 2 ^ bp < 2 ^ n →
        (((List.range t).foldl (single_gate_step g bp) s).getD j' ZERO
          = if j' < t then single_gate_amp g bp s j' else s.getD j' ZERO) ∧
        (((List.range t).foldl (single_gate_step g bp) s).getD (j' + 2 ^ bp) ZERO
          = if j' < t then single_gate_amp g bp s (j' + 2 ^ bp)
            else s.getD (j' + 2 ^ bp) ZERO) := by
  intro t
  induction t with
  | zero => intro _; simp [hs]
  | succ t ih =>
    intro ht
    obtain ⟨ihlen, ihget⟩ := ih (by omega)
    rw [List.range_succ, List.foldl_append, List.foldl_cons, List.foldl_nil]
    set F := (List.range t).foldl (single_gate_step g bp) s with hF
    have hsl : (1 : ℕ) <<< bp = 2 ^ bp := by rw [Nat.shiftLeft_eq, one_mul]
    have hPpos : 0 < 2 ^ bp := Nat.two_pow_pos _
    cases hbt : t.testBit bp
    · -- process branch: bit of t is 0, the pair (t, t + 2^bp) is rewritten
      have hcond : ¬((t >>> bp) &&& 1 = 1) := by
        rw [shift_and_one, hbt]
        simp
      rw [single_gate_step, if_neg hcond, hsl]
      have hor : t ||| 2 ^ bp = t + 2 ^ bp := lor_two_pow hbt
      have htP : t + 2 ^ bp < 2 ^ n := by
        rw [← hor]
        exact Nat.or_lt_two_pow (by omega) (Nat.pow_lt_pow_right (by norm_num) hbpn)
      have hFt : F.getD t ZERO = s.getD t ZERO := by
        rw [(ihget t hbt htP).1, if_neg (by omega)]
      have hFtP : F.getD (t + 2 ^ bp) ZERO = s.getD (t + 2 ^ bp) ZERO := by
        rw [(ihget t hbt htP).2, if_neg (by omega)]
      rw [hor, hFt, hFtP]
      have hV0 : complex_add (complex_mul (mentry g 0 0) (s.getD t ZERO))
          (complex_mul (mentry g 0 1) (s.getD (t + 2 ^ bp) ZERO))
          = single_gate_amp g bp s t := by
        rw [single_gate_amp, if_neg (by simp [hbt])]
      have hV1 : complex_add (complex_mul (mentry g 1 0) (s.getD t ZERO))
          (complex_mul (mentry g 1 1) (s.getD (t + 2 ^ bp) ZERO))
          = single_gate_amp g bp s (t + 2 ^ bp) := by
        rw [single_gate_amp, if_pos (by rw [testBit_add_two_pow_self hbt]),
          Nat.add_sub_cancel]
      rw [hV0, hV1]
      constructor
      · simp [ihlen]
      · intro j' hj' hjn
        obtain ⟨h1, h2⟩ := ihget j' hj' hjn
        have htPj : t + 2 ^ bp ≠ j' := by
          intro e
          rw [← e, testBit_add_two_pow_self hbt] at hj'
          simp at hj'
        constructor
        · rw [getD_set_ne _ _ _ htPj]
          by_cases hjt : j' = t
          · subst hjt
            rw [getD_set_eq _ _ _ _ (by omega : j' < F.length), if_pos (by omega)]
          · rw [getD_set_ne _ _ _ (fun e => hjt e.symm), h1]
            exact if_congr (by omega) rfl rfl
        · by_cases hjt : j' = t
          · subst hjt
            rw [getD_set_eq _ _ _ _ (by simp [ihlen]; omega), if_pos (by omega)]
          · have hne1 : t + 2 ^ bp ≠ j' + 2 ^ bp := by omega
            have hne2 : t ≠ j' + 2 ^ bp := by
              intro e
              rw [e, testBit_add_two_pow_self hj'] at hbt
              simp at hbt
            rw [getD_set_ne _ _ _ hne1, getD_set_ne _ _ _ hne2, h2]
            exact if_congr (by omega) rfl rfl
    · -- skip branch: bit of t is 1
      have hcond : (t >>> bp) &&& 1 = 1 := by rw [shift_and_one, hbt, if_pos rfl]
      rw [single_gate_step, if_pos hcond]
      refine ⟨ihlen, fun j' hj' hjn => ?_⟩
      obtain ⟨h1, h2⟩ := ihget j' hj' hjn
      have hne : j' ≠ t := by
        intro e
        rw [e, hbt] at hj'
        simp at hj'
      exact ⟨by rw [h1]; exact if_congr (by omega) rfl rfl,
        by rw [h2]; exact if_congr (by omega) rfl rfl⟩

theorem apply_single_getD (s : StateVector) (g : GateMatrix) (q n : ℕ)
    (hq : q < n) (hs : s.length = 2 ^ n) :
    (apply_single_qubit_gate s g q n).length = 2 ^ n ∧
    ∀ j < 2 ^ n, (apply_single_qubit_gate s g q n).getD j ZERO
      = single_gate_amp g (n - 1 - q) s j := by
  have heq : apply_single_qubit_gate s g q n
      = (List.range (1 <<< n)).foldl (single_gate_step g (n - 1 - q)) s := rfl
  have hsl : (1 : ℕ) <<< n = 2 ^ n := by rw [Nat.shiftLeft_eq, one_mul]
  have hbpn : n - 1 - q < n := by omega
  have hPpos : 0 < 2 ^ (n - 1 - q) := Nat.two_pow_pos _
  obtain ⟨hlen, hget⟩ := single_fold_inv g (n - 1 - q) n hbpn s hs (2 ^ n) le_rfl
  rw [heq, hsl]
  refine ⟨hlen, fun j hj => ?_⟩
  cases hbt : j.testBit (n - 1 - q)
  · have hjP : j + 2 ^ (n - 1 - q) < 2 ^ n := by
      rw [← lor_two_pow hbt]
      exact Nat.or_lt_two_pow hj (Nat.pow_lt_pow_right (by norm_num) hbpn)
    rw [(hget j hbt hjP).1, if_pos hj]
  · obtain ⟨j', hj'e, hj'b⟩ := exists_of_testBit_true hbt
    subst hj'e
    rw [(hget j' hj'b hj).2, if_pos (by omega)]

-- ── The Kronecker construction: entries of matrix_tensor_product ───────

theorem kron_entry (a b : GateMatrix) (m nn p qq : ℕ)
    (ha : a.length = m) (harow : ∀ row ∈ a, row.length = nn)
    (hb : b.length = p) (hbrow : ∀ row ∈ b, row.length = qq)
    (hm : 0 < m) (hp : 0 < p) :
    (matrix_tensor_product a b).length = m * p ∧
    (∀ row ∈ matrix_tensor_product a b, row.length = nn * qq) ∧
    ∀ r < m * p, ∀ c < nn * qq, mentry (matrix_tensor_product a b) r c
      = complex_mul (mentry a (r / p) (c / qq)) (mentry b (r % p) (c % qq)) := by
  have ha0 : (a.getD 0 []).length = nn := by
    rw [List.getD_eq_getElem _ _ (by omega)]
    exact harow _ (List.getElem_mem _)
  have hb0 : (b.getD 0 []).length = qq := by
    rw [List.getD_eq_getElem _ _ (by omega)]
    exact hbrow _ (List.getElem_mem _)
  simp only [matrix_tensor_product, ha, hb, ha0, hb0]
  refine ⟨by simp, ?_, ?_⟩
  · intro row hrow
    simp only [List.mem_map] at hrow
    obtain ⟨r, _, hr⟩ := hrow
    rw [← hr]
    simp
  · intro r hr c hc
    rw [mentry, getD_range_map _ _ _ _ hr, getD_range_map _ _ _ _ hc]
    rfl

-- ── Entries of the iterated tensor product I ⊗ ... ⊗ U ⊗ ... ⊗ I ───────

theorem embed_chain_entry (u : GateMatrix) (hu : u.length = 2)
    (hurow : ∀ row ∈ u, row.length = 2) (q : ℕ) :
    ∀ t, (((List.range t).foldl
        (fun acc k => matrix_tensor_product acc (if k = q then u else GATE_I)) [[ONE]]).length
          = 2 ^ t) ∧
      (∀ row ∈ (List.range t).foldl
        (fun acc k => matrix_tensor_product acc (if k = q then u else GATE_I)) [[ONE]],
        row.length = 2 ^ t) ∧
      ∀ r < 2 ^ t, ∀ c < 2 ^ t,
        mentry ((List.range t).foldl
          (fun acc k => matrix_tensor_product acc (if k = q then u else GATE_I)) [[ONE]]) r c
        = kron_chain_entry (fun k => if k = q then u else GATE_I) t r c := by
  have hG : ∀ k, ((if k = q then u else GATE_I).length = 2 ∧
      ∀ row ∈ (if k = q then u else GATE_I), row.length = 2) := by
    intro k
    by_cases hk : k = q
    · rw [if_pos hk]
      exact ⟨hu, hurow⟩
    · rw [if_neg hk]
      refine ⟨rfl, ?_⟩
      intro row hrow
      simp only [GATE_I, List.mem_cons, List.not_mem_nil, or_false] at hrow
      rcases hrow with h | h <;> subst h <;> rfl
  intro t
  induction t with
  | zero =>
    refine ⟨rfl, ?_, ?_⟩
    · intro row hrow
      simp only [List.range_zero, List.foldl_nil, List.mem_cons, List.not_mem_nil,
        or_false] at hrow
      subst hrow
      rfl
    · intro r hr c hc
      interval_cases r
      interval_cases c
      rfl
  | succ t ih =>
    obtain ⟨ihlen, ihrow, ihent⟩ := ih
    rw [List.range_succ, List.foldl_append, List.foldl_cons, List.foldl_nil]
    obtain ⟨hGlen, hGrow⟩ := hG t
    obtain ⟨klen, krow, kent⟩ := kron_entry _ _ (2 ^ t) (2 ^ t) 2 2 ihlen ihrow hGlen hGrow
      (Nat.two_pow_pos _) (by norm_num)
    have hdim : (2 : ℕ) ^ t * 2 = 2 ^ (t + 1) := by rw [pow_succ]
    refine ⟨by rw [klen, hdim], fun row hrow => by rw [krow row hrow, hdim], ?_⟩
    intro r hr c hc
    rw [kent r (by omega) c (by omega), kron_chain_entry,
      ihent (r / 2) (by omega) (c / 2) (by omega)]

theorem kce_prod (g : ℕ → GateMatrix) :
    ∀ t r c, kron_chain_entry g t r c
      = ∏ k ∈ Finset.range t,
          mentry (g k) (r / 2 ^ (t - 1 - k) % 2) (c / 2 ^ (t - 1 - k) % 2) := by
  intro t
  induction t with
  | zero => intro r c; simp [kron_chain_entry, ONE_eq]
  | succ t ih =>
    intro r c
    rw [kron_chain_entry, complex_mul_eq, ih (r / 2) (c / 2), Finset.prod_range_succ]
    congr 1
    · refine Finset.prod_congr rfl fun k hk => ?_
      have hk' : k < t := Finset.mem_range.mp hk
      have hdiv : ∀ x : ℕ, x / 2 / 2 ^ (t - 1 - k) = x / 2 ^ (t + 1 - 1 - k) := by
        intro x
        rw [Nat.div_div_eq_div_mul]
        congr 1
        have he : t + 1 - 1 - k = t - 1 - k + 1 := by omega
        rw [he, pow_succ]
        ring
      rw [hdiv r, hdiv c]
    · have h0 : t + 1 - 1 - t = 0 := by omega
      rw [h0]
      simp

theorem chain_prod_eval (u : GateMatrix) (q n : ℕ) (hq : q < n) (r c : ℕ) :
    (∏ k ∈ Finset.range n, mentry (if k = q then u else GATE_I)
        (r / 2 ^ (n - 1 - k) % 2) (c / 2 ^ (n - 1 - k) % 2))
    = if ∀ k < n, k ≠ q → r.testBit (n - 1 - k) = c.testBit (n - 1 - k)
      then mentry u (r / 2 ^ (n - 1 - q) % 2) (c / 2 ^ (n - 1 - q) % 2) else 0 := by
  have hI00 : mentry GATE_I 0 0 = 1 := by
    apply Complex.ext <;> simp [mentry, GATE_I]
  have hI11 : mentry GATE_I 1 1 = 1 := by
    apply Complex.ext <;> simp [mentry, GATE_I]
  have hI01 : mentry GATE_I 0 1 = 0 := by
    apply Complex.ext <;> simp [mentry, GATE_I]
  have hI10 : mentry GATE_I 1 0 = 0 := by
    apply Complex.ext <;> simp [mentry, GATE_I]
  by_cases hall : ∀ k < n, k ≠ q → r.testBit (n - 1 - k) = c.testBit (n - 1 - k)
  · rw [if_pos hall]
    rw [Finset.prod_eq_single q]
    · rw [if_pos rfl]
    · intro k hk hkq
      rw [if_neg hkq, div_pow_mod_two_eq, div_pow_mod_two_eq,
        hall k (Finset.mem_range.mp hk) hkq]
      cases c.testBit (n - 1 - k)
      · simpa using hI00
      · simpa using hI11
    · intro hqn
      exact absurd (Finset.mem_range.mpr hq) hqn
  · rw [if_neg hall]
    push_neg at hall
    obtain ⟨k0, hk0n, hk0q, hk0ne⟩ := hall
    refine Finset.prod_eq_zero (Finset.mem_range.mpr hk0n) ?_
    rw [if_neg hk0q, div_pow_mod_two_eq, div_pow_mod_two_eq]
    cases hr : r.testBit (n - 1 - k0) <;> cases hc : c.testBit (n - 1 - k0)
    · rw [hr, hc] at hk0ne
      exact absurd rfl hk0ne
    · simpa using hI01
    · simpa using hI10
    · rw [hr, hc] at hk0ne
      exact absurd rfl hk0ne

-- ── Which columns survive in a row of the embedded gate ────────────────

theorem support_eq {n q : ℕ} (hq : q < n) {j0 : ℕ} (hb : j0.testBit (n - 1 - q) = false)
    (hlt : j0 + 2 ^ (n - 1 - q) < 2 ^ n) (j : ℕ)
    (hj : j = j0 ∨ j = j0 + 2 ^ (n - 1 - q)) :
    ∀ c < 2 ^ n,
      (∀ k < n, k ≠ q → j.testBit (n - 1 - k) = c.testBit (n - 1 - k))
        ↔ (c = j0 ∨ c = j0 + 2 ^ (n - 1 - q)) := by
  intro c hc
  have hPpos : 0 < 2 ^ (n - 1 - q) := Nat.two_pow_pos _
  have hj0n : j0 < 2 ^ n := by omega
  have hjbits : ∀ i, i ≠ n - 1 - q → j.testBit i = j0.testBit i := by
    intro i hi
    rcases hj with rfl | rfl
    · rfl
    · exact testBit_add_two_pow_ne hb hi
  constructor
  · intro hm
    have hbits : ∀ i < n, i ≠ n - 1 - q → c.testBit i = j0.testBit i := by
      intro i hin hibp
      have hk : n - 1 - (n - 1 - i) = i := by omega
      have := hm (n - 1 - i) (by omega) (by omega)
      rw [hk] at this
      rw [← this, hjbits i hibp]
    have hhigh : ∀ i, n ≤ i → c.testBit i = false ∧ j0.testBit i = false
        ∧ (j0 + 2 ^ (n - 1 - q)).testBit i = false := by
      intro i hin
      have h2 : (2 : ℕ) ^ n ≤ 2 ^ i := Nat.pow_le_pow_right (by norm_num) hin
      exact ⟨Nat.testBit_lt_two_pow (by omega), Nat.testBit_lt_two_pow (by omega),
        Nat.testBit_lt_two_pow (by omega)⟩
    cases hcb : c.testBit (n - 1 - q)
    · left
      apply Nat.eq_of_testBit_eq
      intro i
      rcases lt_or_ge i n with hin | hin
      · by_cases hibp : i = n - 1 - q
        · rw [hibp, hcb, hb]
        · exact hbits i hin hibp
      · rw [(hhigh i hin).1, (hhigh i hin).2.1]
    · right
      apply Nat.eq_of_testBit_eq
      intro i
      rcases lt_or_ge i n with hin | hin
      · by_cases hibp : i = n - 1 - q
        · rw [hibp, hcb, testBit_add_two_pow_self hb]
        · rw [hbits i hin hibp, (testBit_add_two_pow_ne hb hibp).symm]
      · rw [(hhigh i hin).1, (hhigh i hin).2.2]
  · intro hc'
    intro k hk hkq
    have hne : n - 1 - k ≠ n - 1 - q := by omega
    rcases hc' with rfl | rfl
    · rw [hjbits _ hne]
    · rw [hjbits _ hne, testBit_add_two_pow_ne hb hne]

theorem row_sum_eval (u : GateMatrix) (q n : ℕ) (hq : q < n) (s : StateVector)
    {j0 : ℕ} (hb : j0.testBit (n - 1 - q) = false)
    (hlt : j0 + 2 ^ (n - 1 - q) < 2 ^ n) (j : ℕ) (hj : j = j0 ∨ j = j0 + 2 ^ (n - 1 - q)) :
    (∑ c ∈ Finset.range (2 ^ n),
      (if ∀ k < n, k ≠ q → j.testBit (n - 1 - k) = c.testBit (n - 1 - k)
        then mentry u (j / 2 ^ (n - 1 - q) % 2) (c / 2 ^ (n - 1 - q) % 2) else 0)
        * s.getD c ZERO)
    = mentry u (j / 2 ^ (n - 1 - q) % 2) 0 * s.getD j0 ZERO
      + mentry u (j / 2 ^ (n - 1 - q) % 2) 1 * s.getD (j0 + 2 ^ (n - 1 - q)) ZERO := by
  have hPpos : 0 < 2 ^ (n - 1 - q) := Nat.two_pow_pos _
  have hsup := support_eq hq hb hlt j hj
  have hsubset : ({j0, j0 + 2 ^ (n - 1 - q)} : Finset ℕ) ⊆ Finset.range (2 ^ n) := by
    intro x hx
    simp only [Finset.mem_insert, Finset.mem_singleton] at hx
    rcases hx with rfl | rfl <;> rw [Finset.mem_range] <;> omega
  have hzero : ∀ x ∈ Finset.range (2 ^ n),
      x ∉ ({j0, j0 + 2 ^ (n - 1 - q)} : Finset ℕ) →
      (if ∀ k < n, k ≠ q → j.testBit (n - 1 - k) = x.testBit (n - 1 - k)
        then mentry u (j / 2 ^ (n - 1 - q) % 2) (x / 2 ^ (n - 1 - q) % 2) else 0)
        * s.getD x ZERO = 0 := by
    intro x hx hnx
    rw [if_neg, zero_mul]
    intro hcon
    apply hnx
    simp only [Finset.mem_insert, Finset.mem_singleton]
    exact (hsup x (Finset.mem_range.mp hx)).mp hcon
  rw [← Finset.sum_subset hsubset hzero]
  have hne : j0 ≠ j0 + 2 ^ (n - 1 - q) := by omega
  rw [Finset.sum_pair hne,
    if_pos ((hsup j0 (by omega)).mpr (Or.inl rfl)),
    if_pos ((hsup _ (by omega)).mpr (Or.inr rfl)),
    div_pow_mod_two_eq j0, hb, div_pow_mod_two_eq (j0 + 2 ^ (n - 1 - q)),
    testBit_add_two_pow_self hb]
  norm_num

theorem mat_vec_embed_getD (u : GateMatrix) (hu : u.length = 2)
    (hurow : ∀ row ∈ u, row.length = 2) (q n : ℕ) (hq : q < n) (s : StateVector)
    (hs : s.length = 2 ^ n) :
    (mat_vec_mul (embed_single_qubit_gate u q n) s).length = 2 ^ n ∧
    ∀ j < 2 ^ n, (mat_vec_mul (embed_single_qubit_gate u q n) s).getD j ZERO
      = single_gate_amp u (n - 1 - q) s j := by
  obtain ⟨elen, erow, eent⟩ := embed_chain_entry u hu hurow q n
  have hembed : embed_single_qubit_gate u q n
      = (List.range n).foldl
        (fun acc k => matrix_tensor_product acc (if k = q then u else GATE_I)) [[ONE]] := rfl
  have helen : (embed_single_qubit_gate u q n).length = 2 ^ n := by rw [hembed]; exact elen
  have hPpos : 0 < 2 ^ (n - 1 - q) := Nat.two_pow_pos _
  have hent : ∀ j < 2 ^ n, ∀ c < 2 ^ n, mentry (embed_single_qubit_gate u q n) j c
      = if ∀ k < n, k ≠ q → j.testBit (n - 1 - k) = c.testBit (n - 1 - k)
        then mentry u (j / 2 ^ (n - 1 - q) % 2) (c / 2 ^ (n - 1 - q) % 2) else 0 := by
    intro j hj c hc
    rw [hembed, eent j hj c hc, kce_prod, ← chain_prod_eval u q n hq j c]
  constructor
  · rw [mat_vec_mul, List.length_map, helen]
  · intro j hj
    have hjlen : j < (embed_single_qubit_gate u q n).length := by omega
    have hmv : (mat_vec_mul (embed_single_qubit_gate u q n) s).getD j ZERO
        = ∑ c ∈ Finset.range s.length,
          complex_mul ((embed_single_qubit_gate u q n)[j].getD c ZERO) (s.getD c ZERO) := by
      rw [mat_vec_mul, List.getD_eq_getElem _ _ (by simpa using hjlen), List.getElem_map]
    have hrowD : (embed_single_qubit_gate u q n)[j]
        = (embed_single_qubit_gate u q n).getD j [] :=
      (List.getD_eq_getElem _ _ hjlen).symm
    rw [hmv, hrowD, hs]
    have hbody : ∀ c ∈ Finset.range (2 ^ n),
        complex_mul (((embed_single_qubit_gate u q n).getD j []).getD c ZERO) (s.getD c ZERO)
        = (if ∀ k < n, k ≠ q → j.testBit (n - 1 - k) = c.testBit (n - 1 - k)
            then mentry u (j / 2 ^ (n - 1 - q) % 2) (c / 2 ^ (n - 1 - q) % 2) else 0)
          * s.getD c ZERO := by
      intro c hcm
      rw [complex_mul_eq, ← mentry, hent j hj c (Finset.mem_range.mp hcm)]
    rw [Finset.sum_congr rfl hbody]
    cases hbt : j.testBit (n - 1 - q)
    · have hjP : j + 2 ^ (n - 1 - q) < 2 ^ n := by
        rw [← lor_two_pow hbt]
        exact Nat.or_lt_two_pow hj (Nat.pow_lt_pow_right (by norm_num) (by omega))
      rw [row_sum_eval u q n hq s hbt hjP j (Or.inl rfl), single_gate_amp, if_neg (by simp [hbt]),
        complex_add_eq, complex_mul_eq, complex_mul_eq, div_pow_mod_two_eq, hbt]
      norm_num
    · obtain ⟨j', hj'e, hj'b⟩ := exists_of_testBit_true hbt
      subst hj'e
      rw [row_sum_eval u q n hq s hj'b hj _ (Or.inr rfl), single_gate_amp,
        if_pos (by rw [testBit_add_two_pow_self hj'b]), complex_add_eq, complex_mul_eq,
        complex_mul_eq, div_pow_mod_two_eq, testBit_add_two_pow_self hj'b, Nat.add_sub_cancel]
      norm_num

/-- C3: the in-place pairwise algorithm of `apply_single_qubit_gate`
computes exactly the matrix–vector product of the state with the `2^n×2^n`
matrix `I ⊗ ... ⊗ U ⊗ ... ⊗ I` (`U` at qubit position `q`) built with
`matrix_tensor_product`. -/
theorem apply_single_qubit_gate_refines_tensor (s : StateVector) (u : GateMatrix) (q n : ℕ)
    (_hn : 1 ≤ n) (hq : q < n) (hs : s.length = 2 ^ n)
    (hu : u.length = 2) (hurow : ∀ row ∈ u, row.length = 2) :
    apply_single_qubit_gate s u q n = mat_vec_mul (embed_single_qubit_gate u q n) s := by
  obtain ⟨alen, aget⟩ := apply_single_getD s u q n hq hs
  obtain ⟨mlen, mget⟩ := mat_vec_embed_getD u hu hurow q n hq s hs
  apply List.ext_getElem (by rw [alen, mlen])
  intro i h1 h2
  have hi : i < 2 ^ n := by rw [alen] at h1; exact h1
  rw [← List.getD_eq_getElem _ ZERO h1, ← List.getD_eq_getElem _ ZERO h2, aget i hi, mget i hi]

/-- Witness: X on the single qubit of a 1-qubit state agrees with the
Kronecker construction. -/
theorem apply_single_qubit_gate_refines_tensor_witness :
    (1 ≤ 1 ∧ 0 < 1 ∧ List.length ([⟨1, 0⟩, ⟨2, 0⟩] : StateVector) = 2 ^ 1 ∧
      GATE_X.length = 2 ∧ ∀ row ∈ GATE_X, row.length = 2) ∧
    apply_single_qubit_gate [⟨1, 0⟩, ⟨2, 0⟩] GATE_X 0 1
      = mat_vec_mul (embed_single_qubit_gate GATE_X 0 1) [⟨1, 0⟩, ⟨2, 0⟩] := by
  have hrow : ∀ row ∈ GATE_X, row.length = 2 := by
    intro row hrow
    simp only [GATE_X, List.mem_cons, List.not_mem_nil, or_false] at hrow
    rcases hrow with h | h <;> subst h <;> rfl
  exact ⟨⟨le_rfl, one_pos, rfl, rfl, hrow⟩,
    apply_single_qubit_gate_refines_tensor [⟨1, 0⟩, ⟨2, 0⟩] GATE_X 0 1 le_rfl one_pos rfl
      rfl hrow⟩

-- ── Group structure for the two-qubit gate ─────────────────────────────

theorem shiftLeft_one_eq (b : ℕ) : (1 : ℕ) <<< b = 2 ^ b := by
  rw [Nat.shiftLeft_eq, one_mul]

theorem testBit_mask (bit0 bit1 i : ℕ) :
    ((1 <<< bit0) ||| (1 <<< bit1)).testBit i
      = (decide (bit0 = i) || decide (bit1 = i)) := by
  rw [shiftLeft_one_eq, shiftLeft_one_eq, Nat.testBit_or, Nat.testBit_two_pow,
    Nat.testBit_two_pow]

theorem base_testBit (bit0 bit1 j i : ℕ) :
    (two_gate_base bit0 bit1 j).testBit i
      = if bit0 = i ∨ bit1 = i then false else j.testBit i := by
  rw [two_gate_base, Nat.testBit_xor, Nat.testBit_and, testBit_mask]
  by_cases h : bit0 = i ∨ bit1 = i
  · rw [if_pos h]
    rcases h with h | h <;> simp [h]
  · rw [if_neg h]
    push_neg at h
    simp [h.1, h.2]

theorem base_bit0 (bit0 bit1 j : ℕ) : (two_gate_base bit0 bit1 j).testBit bit0 = false := by
  rw [base_testBit, if_pos (Or.inl rfl)]

theorem base_bit1 (bit0 bit1 j : ℕ) : (two_gate_base bit0 bit1 j).testBit bit1 = false := by
  rw [base_testBit, if_pos (Or.inr rfl)]

theorem base_idem (bit0 bit1 j : ℕ) :
    two_gate_base bit0 bit1 (two_gate_base bit0 bit1 j) = two_gate_base bit0 bit1 j := by
  apply Nat.eq_of_testBit_eq
  intro i
  simp only [base_testBit]
  split_ifs <;> rfl

theorem base_le (bit0 bit1 j : ℕ) : two_gate_base bit0 bit1 j ≤ j := by
  apply Nat.le_of_testBit
  intro i hi
  rw [base_testBit] at hi
  by_cases h : bit0 = i ∨ bit1 = i
  · rw [if_pos h] at hi
    exact absurd hi (by simp)
  · rw [if_neg h] at hi
    exact hi

theorem member_or_eq {bit0 bit1 b : ℕ} (hne : bit0 ≠ bit1)
    (h0 : b.testBit bit0 = false) (h1 : b.testBit bit1 = false) :
    two_gate_member bit0 bit1 b 0 = b ∧
    two_gate_member bit0 bit1 b 1 = b ||| 1 <<< bit1 ∧
    two_gate_member bit0 bit1 b 2 = b ||| 1 <<< bit0 ∧
    two_gate_member bit0 bit1 b 3 = b ||| 1 <<< bit0 ||| 1 <<< bit1 := by
  refine ⟨by simp [two_gate_member], ?_, ?_, ?_⟩
  · rw [two_gate_member, shiftLeft_one_eq, lor_two_pow h1]
    norm_num
  · rw [two_gate_member, shiftLeft_one_eq, lor_two_pow h0]
    norm_num
  · rw [two_gate_member, shiftLeft_one_eq, shiftLeft_one_eq, lor_two_pow h0, lor_two_pow
      (by rw [testBit_add_two_pow_ne h0 (fun e : bit1 = bit0 => hne e.symm)]; exact h1)]
    norm_num

theorem member_testBit0 {bit0 bit1 b : ℕ} (hne : bit0 ≠ bit1)
    (h0 : b.testBit bit0 = false) (h1 : b.testBit bit1 = false) {c : ℕ} (hc : c < 4) :
    (two_gate_member bit0 bit1 b c).testBit bit0 = decide (c / 2 = 1) := by
  obtain ⟨m0, m1, m2, m3⟩ := member_or_eq hne h0 h1
  interval_cases c
  · rw [m0, h0]
    norm_num
  · rw [m1, shiftLeft_one_eq, Nat.testBit_or, h0, Nat.testBit_two_pow]
    simp [Ne.symm hne]
  · rw [m2, shiftLeft_one_eq, Nat.testBit_or, h0, Nat.testBit_two_pow]
    simp
  · rw [m3, shiftLeft_one_eq, shiftLeft_one_eq, Nat.testBit_or, Nat.testBit_or, h0,
      Nat.testBit_two_pow, Nat.testBit_two_pow]
    simp [Ne.symm hne]

theorem member_testBit1 {bit0 bit1 b : ℕ} (hne : bit0 ≠ bit1)
    (h0 : b.testBit bit0 = false) (h1 : b.testBit bit1 = false) {c : ℕ} (hc : c < 4) :
    (two_gate_member bit0 bit1 b c).testBit bit1 = decide (c % 2 = 1) := by
  obtain ⟨m0, m1, m2, m3⟩ := member_or_eq hne h0 h1
  interval_cases c
  · rw [m0, h1]
    norm_num
  · rw [m1, shiftLeft_one_eq, Nat.testBit_or, h1, Nat.testBit_two_pow]
    simp
  · rw [m2, shiftLeft_one_eq, Nat.testBit_or, h1, Nat.testBit_two_pow]
    simp [hne]
  · rw [m3, shiftLeft_one_eq, shiftLeft_one_eq, Nat.testBit_or, Nat.testBit_or, h1,
      Nat.testBit_two_pow, Nat.testBit_two_pow]
    simp [hne]

theorem member_testBit_other {bit0 bit1 b : ℕ} (hne : bit0 ≠ bit1)
    (h0 : b.testBit bit0 = false) (h1 : b.testBit bit1 = false) {c : ℕ} (hc : c < 4)
    {i : ℕ} (hi0 : i ≠ bit0) (hi1 : i ≠ bit1) :
    (two_gate_member bit0 bit1 b c).testBit i = b.testBit i := by
  obtain ⟨m0, m1, m2, m3⟩ := member_or_eq hne h0 h1
  interval_cases c
  · rw [m0]
  · rw [m1, shiftLeft_one_eq, Nat.testBit_or, Nat.testBit_two_pow]
    simp [Ne.symm hi1]
  · rw [m2, shiftLeft_one_eq, Nat.testBit_or, Nat.testBit_two_pow]
    simp [Ne.symm hi0]
  · rw [m3, shiftLeft_one_eq, shiftLeft_one_eq, Nat.testBit_or, Nat.testBit_or,
      Nat.testBit_two_pow, Nat.testBit_two_pow]
    simp [Ne.symm hi0, Ne.symm hi1]

theorem member_base {bit0 bit1 b : ℕ} (hne : bit0 ≠ bit1)
    (h0 : b.testBit bit0 = false) (h1 : b.testBit bit1 = false) {c : ℕ} (hc : c < 4) :
    two_gate_base bit0 bit1 (two_gate_member bit0 bit1 b c) = b := by
  apply Nat.eq_of_testBit_eq
  intro i
  rw [base_testBit]
  by_cases h : bit0 = i ∨ bit1 = i
  · rw [if_pos h]
    rcases h with rfl | rfl
    · exact h0.symm
    · exact h1.symm
  · rw [if_neg h]
    push_neg at h
    exact member_testBit_other hne h0 h1 hc (Ne.symm h.1) (Ne.symm h.2)

theorem member_row {bit0 bit1 b : ℕ} (hne : bit0 ≠ bit1)
    (h0 : b.testBit bit0 = false) (h1 : b.testBit bit1 = false) {c : ℕ} (hc : c < 4) :
    two_gate_row bit0 bit1 (two_gate_member bit0 bit1 b c) = c := by
  rw [two_gate_row, member_testBit0 hne h0 h1 hc, member_testBit1 hne h0 h1 hc]
  interval_cases c <;> rfl

theorem row_lt_four (bit0 bit1 j : ℕ) : two_gate_row bit0 bit1 j < 4 := by
  rw [two_gate_row]
  have hb0 := Bool.toNat_le (j.testBit bit0)
  have hb1 := Bool.toNat_le (j.testBit bit1)
  omega

theorem member_complete (bit0 bit1 j : ℕ) (hne : bit0 ≠ bit1) :
    two_gate_member bit0 bit1 (two_gate_base bit0 bit1 j) (two_gate_row bit0 bit1 j) = j := by
  have h0 := base_bit0 bit0 bit1 j
  have h1 := base_bit1 bit0 bit1 j
  have hrow := row_lt_four bit0 bit1 j
  apply Nat.eq_of_testBit_eq
  intro i
  by_cases hi0 : i = bit0
  · subst hi0
    rw [member_testBit0 hne h0 h1 hrow, two_gate_row]
    cases hb0 : j.testBit i <;> cases hb1 : j.testBit bit1 <;> rfl
  · by_cases hi1 : i = bit1
    · subst hi1
      rw [member_testBit1 hne h0 h1 hrow, two_gate_row]
      cases hb0 : j.testBit bit0 <;> cases hb1 : j.testBit i <;> rfl
    · rw [member_testBit_other hne h0 h1 hrow hi0 hi1, base_testBit,
        if_neg (by push_neg; exact ⟨Ne.symm hi0, Ne.symm hi1⟩)]

theorem member_lt_two_pow {bit0 bit1 b n : ℕ} (hne : bit0 ≠ bit1)
    (h0 : b.testBit bit0 = false) (h1 : b.testBit bit1 = false) (hb : b < 2 ^ n)
    (hbit0 : bit0 < n) (hbit1 : bit1 < n) {c : ℕ} (hc : c < 4) :
    two_gate_member bit0 bit1 b c < 2 ^ n := by
  obtain ⟨m0, m1, m2, m3⟩ := member_or_eq hne h0 h1
  have p0 : (1 : ℕ) <<< bit0 < 2 ^ n := by
    rw [shiftLeft_one_eq]
    exact Nat.pow_lt_pow_right (by norm_num) hbit0
  have p1 : (1 : ℕ) <<< bit1 < 2 ^ n := by
    rw [shiftLeft_one_eq]
    exact Nat.pow_lt_pow_right (by norm_num) hbit1
  interval_cases c
  · rw [m0]; exact hb
  · rw [m1]; exact Nat.or_lt_two_pow hb p1
  · rw [m2]; exact Nat.or_lt_two_pow hb p0
  · rw [m3]; exact Nat.or_lt_two_pow (Nat.or_lt_two_pow hb p0) p1

theorem member_inj {bit0 bit1 b : ℕ} (hne : bit0 ≠ bit1)
    (h0 : b.testBit bit0 = false) (h1 : b.testBit bit1 = false) {c c' : ℕ}
    (hc : c < 4) (hc' : c' < 4)
    (he : two_gate_member bit0 bit1 b c = two_gate_member bit0 bit1 b c') : c = c' := by
  have hr := member_row hne h0 h1 hc (b := b)
  rw [he, member_row hne h0 h1 hc'] at hr
  exact hr.symm

theorem base_of_clear {bit0 bit1 i : ℕ} (h0 : i.testBit bit0 = false)
    (h1 : i.testBit bit1 = false) : two_gate_base bit0 bit1 i = i := by
  apply Nat.eq_of_testBit_eq
  intro k
  rw [base_testBit]
  by_cases h : bit0 = k ∨ bit1 = k
  · rw [if_pos h]
    rcases h with rfl | rfl
    · exact h0.symm
    · exact h1.symm
  · rw [if_neg h]

-- ── Unfolding one processing step of apply_two_qubit_gate ──────────────

theorem two_gate_step_or (g : GateMatrix) (bit0 bit1 : ℕ) (sp : StateVector × List ℕ)
    (i : ℕ) (hc0 : sp.2.getD i 0 = 0) :
    two_gate_step g bit0 bit1 sp i =
      ((((sp.1.set (two_gate_base bit0 bit1 i) (two_gate_vals g bit0 bit1 sp.1 i 0)).set
          (two_gate_base bit0 bit1 i ||| 1 <<< bit1) (two_gate_vals g bit0 bit1 sp.1 i 1)).set
          (two_gate_base bit0 bit1 i ||| 1 <<< bit0) (two_gate_vals g bit0 bit1 sp.1 i 2)).set
          (two_gate_base bit0 bit1 i ||| 1 <<< bit0 ||| 1 <<< bit1)
          (two_gate_vals g bit0 bit1 sp.1 i 3),
       (((sp.2.set (two_gate_base bit0 bit1 i) 1).set
          (two_gate_base bit0 bit1 i ||| 1 <<< bit1) 1).set
          (two_gate_base bit0 bit1 i ||| 1 <<< bit0) 1).set
          (two_gate_base bit0 bit1 i ||| 1 <<< bit0 ||| 1 <<< bit1) 1) := by
  rw [two_gate_step, if_neg (fun h => h hc0)]
  rfl

theorem two_gate_vals_amp (g : GateMatrix) (bit0 bit1 : ℕ) (s s' : StateVector) (t r : ℕ)
    (hne : bit0 ≠ bit1) (h0 : t.testBit bit0 = false) (h1 : t.testBit bit1 = false)
    (hr : r < 4)
    (hread : ∀ c < 4, s'.getD (two_gate_member bit0 bit1 t c) ZERO
      = s.getD (two_gate_member bit0 bit1 t c) ZERO) :
    two_gate_vals g bit0 bit1 s' t r
      = two_gate_amp g bit0 bit1 s (two_gate_member bit0 bit1 t r) := by
  obtain ⟨m0, m1, m2, m3⟩ := member_or_eq hne h0 h1
  have hB : two_gate_base bit0 bit1 t = t := base_of_clear h0 h1
  have r0 := hread 0 (by norm_num)
  have r1 := hread 1 (by norm_num)
  have r2 := hread 2 (by norm_num)
  have r3 := hread 3 (by norm_num)
  rw [m0] at r0
  rw [m1] at r1
  rw [m2] at r2
  rw [m3] at r3
  rw [two_gate_vals, hB, r0, r1, r2, r3, two_gate_amp, member_row hne h0 h1 hr,
    member_base hne h0 h1 hr,
    show (4 : ℕ) = 3 + 1 from rfl, Finset.sum_range_succ, Finset.sum_range_succ,
    Finset.sum_range_succ, Finset.sum_range_succ, Finset.sum_range_zero, m0, m1, m2, m3]
  rfl

theorem two_fold_inv (g : GateMatrix) (bit0 bit1 n : ℕ) (hbit0 : bit0 < n) (hbit1 : bit1 < n)
    (hne : bit0 ≠ bit1) (s : StateVector) (hs : s.length = 2 ^ n) :
    ∀ t, t ≤ 2 ^ n →
      (((List.range t).foldl (two_gate_step g bit0 bit1)
        (s, List.replicate (2 ^ n) 0)).1.length = 2 ^ n) ∧
      (((List.range t).foldl (two_gate_step g bit0 bit1)
        (s, List.replicate (2 ^ n) 0)).2.length = 2 ^ n) ∧
      (∀ j < 2 ^ n,
        (((List.range t).foldl (two_gate_step g bit0 bit1)
          (s, List.replicate (2 ^ n) 0)).2.getD j 0 ≠ 0
          ↔ two_gate_base bit0 bit1 j < t)) ∧
      (∀ j < 2 ^ n, ((List.range t).foldl (two_gate_step g bit0 bit1)
          (s, List.replicate (2 ^ n) 0)).1.getD j ZERO
        = if two_gate_base bit0 bit1 j < t then two_gate_amp g bit0 bit1 s j
          else s.getD j ZERO) := by
  intro t
  induction t with
  | zero =>
    intro _
    refine ⟨by simp [hs], by simp, ?_, ?_⟩
    · intro j hj
      simp [List.getD_eq_getElem?_getD, List.getElem?_replicate, hj]
    · intro j hj
      simp
  | succ t ih =>
    intro ht
    obtain ⟨ihl1, ihl2, ihp, ihs'⟩ := ih (by omega)
    rw [List.range_succ, List.foldl_append, List.foldl_cons, List.foldl_nil]
    set FP := (List.range t).foldl (two_gate_step g bit0 bit1)
      (s, List.replicate (2 ^ n) 0) with hFP
    have htlt : t < 2 ^ n := by omega
    by_cases hproc : two_gate_base bit0 bit1 t < t
    · -- group already processed: skip
      have hcond : FP.2.getD t 0 ≠ 0 := (ihp t htlt).mpr hproc
      rw [two_gate_step, if_pos hcond]
      have hbne : ∀ j, two_gate_base bit0 bit1 j ≠ t := by
        intro j e
        have hidem := base_idem bit0 bit1 j
        rw [e] at hidem
        omega
      refine ⟨ihl1, ihl2, ?_, ?_⟩
      · intro j hj
        rw [ihp j hj]
        have := hbne j
        omega
      · intro j hj
        rw [ihs' j hj]
        exact if_congr (by have := hbne j; omega) rfl rfl
    · -- t leads a fresh group: process it
      have hbase_t : two_gate_base bit0 bit1 t = t := by
        have := base_le bit0 bit1 t
        omega
      have h0t : t.testBit bit0 = false := by
        rw [← hbase_t]
        exact base_bit0 bit0 bit1 t
      have h1t : t.testBit bit1 = false := by
        rw [← hbase_t]
        exact base_bit1 bit0 bit1 t
      have hc0 : FP.2.getD t 0 = 0 := by
        by_contra hc
        exact hproc ((ihp t htlt).mp hc)
      obtain ⟨m0, m1, m2, m3⟩ := member_or_eq hne h0t h1t
      have hmlt : ∀ c < 4, two_gate_member bit0 bit1 t c < 2 ^ n := fun c hc =>
        member_lt_two_pow hne h0t h1t htlt hbit0 hbit1 hc
      have hmbase : ∀ c < 4, two_gate_base bit0 bit1 (two_gate_member bit0 bit1 t c) = t :=
        fun c hc => member_base hne h0t h1t hc
      have hread : ∀ c < 4, FP.1.getD (two_gate_member bit0 bit1 t c) ZERO
          = s.getD (two_gate_member bit0 bit1 t c) ZERO := by
        intro c hc
        rw [ihs' _ (hmlt c hc), if_neg (by rw [hmbase c hc]; omega)]
      have hvals : ∀ r < 4, two_gate_vals g bit0 bit1 FP.1 t r
          = two_gate_amp g bit0 bit1 s (two_gate_member bit0 bit1 t r) := fun r hr =>
        two_gate_vals_amp g bit0 bit1 s FP.1 t r hne h0t h1t hr hread
      have hm1lt : two_gate_member bit0 bit1 t 1 < 2 ^ n := hmlt 1 (by norm_num)
      have hm2lt : two_gate_member bit0 bit1 t 2 < 2 ^ n := hmlt 2 (by norm_num)
      have hm3lt : two_gate_member bit0 bit1 t 3 < 2 ^ n := hmlt 3 (by norm_num)
      rw [two_gate_step_or g bit0 bit1 FP t hc0, hbase_t,
        hvals 0 (by norm_num), hvals 1 (by norm_num), hvals 2 (by norm_num),
        hvals 3 (by norm_num), ← m3, ← m2, ← m1]
      have hmm : ∀ j, two_gate_base bit0 bit1 j = t →
          j = two_gate_member bit0 bit1 t (two_gate_row bit0 bit1 j) := by
        intro j hbj
        conv_lhs => rw [← member_complete bit0 bit1 j hne]
        rw [hbj]
      have hnotmem : ∀ j, two_gate_base bit0 bit1 j ≠ t →
          ∀ c < 4, j ≠ two_gate_member bit0 bit1 t c := by
        intro j hbj c hc e
        exact hbj (by rw [e, hmbase c hc])
      constructor
      · simp only [List.length_set]
        exact ihl1
      constructor
      · simp only [List.length_set]
        exact ihl2
      constructor
      · -- processed bitmap after marking the four members
        intro j hj
        by_cases hbj : two_gate_base bit0 bit1 j = t
        · have hrowj := row_lt_four bit0 bit1 j
          have hjm := hmm j hbj
          have hone : ((((FP.2.set t 1).set (two_gate_member bit0 bit1 t 1) 1).set
              (two_gate_member bit0 bit1 t 2) 1).set
              (two_gate_member bit0 bit1 t 3) 1).getD j 0 = 1 := by
            interval_cases hrc : two_gate_row bit0 bit1 j
            · rw [m0] at hjm
              subst hjm
              rw [getD_set_ne _ _ _ (fun e => by
                  have h30 := member_inj hne h0t h1t (by norm_num) (by norm_num)
                    (e.trans m0.symm)
                  norm_num at h30),
                getD_set_ne _ _ _ (fun e => by
                  have h20 := member_inj hne h0t h1t (by norm_num) (by norm_num)
                    (e.trans m0.symm)
                  norm_num at h20),
                getD_set_ne _ _ _ (fun e => by
                  have h10 := member_inj hne h0t h1t (by norm_num) (by norm_num)
                    (e.trans m0.symm)
                  norm_num at h10),
                getD_set_eq _ _ _ _ (by omega)]
            · subst hjm
              rw [getD_set_ne _ _ _ (fun e => by
                  have h31 := member_inj hne h0t h1t (by norm_num) (by norm_num) e
                  norm_num at h31),
                getD_set_ne _ _ _ (fun e => by
                  have h21 := member_inj hne h0t h1t (by norm_num) (by norm_num) e
                  norm_num at h21),
                getD_set_eq _ _ _ _ (by simp only [List.length_set]; omega)]
            · subst hjm
              rw [getD_set_ne _ _ _ (fun e => by
                  have h32 := member_inj hne h0t h1t (by norm_num) (by norm_num) e
                  norm_num at h32),
                getD_set_eq _ _ _ _ (by simp only [List.length_set]; omega)]
            · subst hjm
              rw [getD_set_eq _ _ _ _ (by simp only [List.length_set]; omega)]
          rw [hone]
          constructor
          · intro _
            omega
          · intro _
            norm_num
        · have hnm := hnotmem j hbj
          have hunch : ((((FP.2.set t 1).set (two_gate_member bit0 bit1 t 1) 1).set
              (two_gate_member bit0 bit1 t 2) 1).set
              (two_gate_member bit0 bit1 t 3) 1).getD j 0 = FP.2.getD j 0 := by
            rw [getD_set_ne _ _ _ (fun e => hnm 3 (by norm_num) e.symm),
              getD_set_ne _ _ _ (fun e => hnm 2 (by norm_num) e.symm),
              getD_set_ne _ _ _ (fun e => hnm 1 (by norm_num) e.symm),
              getD_set_ne _ _ _ (fun e => hnm 0 (by norm_num) (e.symm.trans m0.symm))]
          rw [hunch, ihp j hj]
          omega
      · -- the state vector after the four writes
        intro j hj
        by_cases hbj : two_gate_base bit0 bit1 j = t
        · have hrowj := row_lt_four bit0 bit1 j
          have hjm := hmm j hbj
          have hval : ((((FP.1.set t
              (two_gate_amp g bit0 bit1 s (two_gate_member bit0 bit1 t 0))).set
              (two_gate_member bit0 bit1 t 1)
              (two_gate_amp g bit0 bit1 s (two_gate_member bit0 bit1 t 1))).set
              (two_gate_member bit0 bit1 t 2)
              (two_gate_amp g bit0 bit1 s (two_gate_member bit0 bit1 t 2))).set
              (two_gate_member bit0 bit1 t 3)
              (two_gate_amp g bit0 bit1 s (two_gate_member bit0 bit1 t 3))).getD j ZERO
              = two_gate_amp g bit0 bit1 s j := by
            interval_cases hrc : two_gate_row bit0 bit1 j
            · rw [m0] at hjm
              subst hjm
              rw [getD_set_ne _ _ _ (fun e => by
                  have h30 := member_inj hne h0t h1t (by norm_num) (by norm_num)
                    (e.trans m0.symm)
                  norm_num at h30),
                getD_set_ne _ _ _ (fun e => by
                  have h20 := member_inj hne h0t h1t (by norm_num) (by norm_num)
                    (e.trans m0.symm)
                  norm_num at h20),
                getD_set_ne _ _ _ (fun e => by
                  have h10 := member_inj hne h0t h1t (by norm_num) (by norm_num)
                    (e.trans m0.symm)
                  norm_num at h10),
                getD_set_eq _ _ _ _ (by omega), m0]
            · subst hjm
              rw [getD_set_ne _ _ _ (fun e => by
                  have h31 := member_inj hne h0t h1t (by norm_num) (by norm_num) e
                  norm_num at h31),
                getD_set_ne _ _ _ (fun e => by
                  have h21 := member_inj hne h0t h1t (by norm_num) (by norm_num) e
                  norm_num at h21),
                getD_set_eq _ _ _ _ (by simp only [List.length_set]; omega)]
            · subst hjm
              rw [getD_set_ne _ _ _ (fun e => by
                  have h32 := member_inj hne h0t h1t (by norm_num) (by norm_num) e
                  norm_num at h32),
                getD_set_eq _ _ _ _ (by simp only [List.length_set]; omega)]
            · subst hjm
              rw [getD_set_eq _ _ _ _ (by simp only [List.length_set]; omega)]
          rw [hval, if_pos (by omega)]
        · have hnm := hnotmem j hbj
          have hunch : ((((FP.1.set t
              (two_gate_amp g bit0 bit1 s (two_gate_member bit0 bit1 t 0))).set
              (two_gate_member bit0 bit1 t 1)
              (two_gate_amp g bit0 bit1 s (two_gate_member bit0 bit1 t 1))).set
              (two_gate_member bit0 bit1 t 2)
              (two_gate_amp g bit0 bit1 s (two_gate_member bit0 bit1 t 2))).set
              (two_gate_member bit0 bit1 t 3)
              (two_gate_amp g bit0 bit1 s (two_gate_member bit0 bit1 t 3))).getD j ZERO
              = FP.1.getD j ZERO := by
            rw [getD_set_ne _ _ _ (fun e => hnm 3 (by norm_num) e.symm),
              getD_set_ne _ _ _ (fun e => hnm 2 (by norm_num) e.symm),
              getD_set_ne _ _ _ (fun e => hnm 1 (by norm_num) e.symm),
              getD_set_ne _ _ _ (fun e => hnm 0 (by norm_num) (e.symm.trans m0.symm))]
          rw [hunch, ihs' j hj]
          exact if_congr (by omega) rfl rfl

/-- C6: for distinct in-range qubits, `apply_two_qubit_gate` rewrites
every amplitude exactly once: index `j` receives row `2·b0+b1` (its two
target bits) of the 4×4 gate applied to the four original amplitudes of
its group — the `2^(n-2)` groups of 4 indices sharing all bits except the
two target bits — whichever of the two bit positions is higher.  (Each
amplitude is read only before its group is written, so the bitmap makes
each group processed exactly once.) -/
theorem apply_two_qubit_gate_pointwise (s : StateVector) (g : GateMatrix)
    (q0 q1 n : ℕ) (hq0 : q0 < n) (hq1 : q1 < n) (hq : q0 ≠ q1) (hs : s.length = 2 ^ n) :
    (apply_two_qubit_gate s g q0 q1 n).length = 2 ^ n ∧
    ∀ j < 2 ^ n, (apply_two_qubit_gate s g q0 q1 n).getD j ZERO
      = two_gate_amp g (n - 1 - q0) (n - 1 - q1) s j := by
  have heq : apply_two_qubit_gate s g q0 q1 n
      = ((List.range (1 <<< n)).foldl (two_gate_step g (n - 1 - q0) (n - 1 - q1))
        (s, List.replicate (1 <<< n) 0)).1 := rfl
  have hsl : (1 : ℕ) <<< n = 2 ^ n := shiftLeft_one_eq n
  have hbne : n - 1 - q0 ≠ n - 1 - q1 := by omega
  obtain ⟨hl1, _, _, hget⟩ := two_fold_inv g (n - 1 - q0) (n - 1 - q1) n
    (by omega) (by omega) hbne s hs (2 ^ n) le_rfl
  rw [heq, hsl]
  refine ⟨hl1, fun j hj => ?_⟩
  rw [hget j hj, if_pos (lt_of_le_of_lt (base_le _ _ _) hj)]

/-- Witness: CNOT on qubits (0, 1) of a 2-qubit state. -/
theorem apply_two_qubit_gate_pointwise_witness :
    ((0 : ℕ) < 2 ∧ (1 : ℕ) < 2 ∧ (0 : ℕ) ≠ 1 ∧
      List.length ([⟨1, 0⟩, ⟨0, 0⟩, ⟨0, 0⟩, ⟨0, 0⟩] : StateVector) = 2 ^ 2) ∧
    ((apply_two_qubit_gate [⟨1, 0⟩, ⟨0, 0⟩, ⟨0, 0⟩, ⟨0, 0⟩] GATE_CNOT 0 1 2).length = 2 ^ 2 ∧
      ∀ j < 2 ^ 2,
        (apply_two_qubit_gate [⟨1, 0⟩, ⟨0, 0⟩, ⟨0, 0⟩, ⟨0, 0⟩] GATE_CNOT 0 1 2).getD j ZERO
          = two_gate_amp GATE_CNOT (2 - 1 - 0) (2 - 1 - 1)
            [⟨1, 0⟩, ⟨0, 0⟩, ⟨0, 0⟩, ⟨0, 0⟩] j) :=
  ⟨⟨by norm_num, by norm_num, by norm_num, by norm_num⟩,
    apply_two_qubit_gate_pointwise [⟨1, 0⟩, ⟨0, 0⟩, ⟨0, 0⟩, ⟨0, 0⟩] GATE_CNOT 0 1 2
      (by norm_num) (by norm_num) (by norm_num) (by norm_num)⟩

-- ── Concrete gate applications (definitional unfoldings) ───────────────

theorem H_on_qubit0_of_two (x0 x1 x2 x3 : Cplx) :
    apply_single_qubit_gate [x0, x1, x2, x3] GATE_H 0 2 =
      [(_SQRT1_2 : ℂ) * x0 + (_SQRT1_2 : ℂ) * x2,
       (_SQRT1_2 : ℂ) * x1 + (_SQRT1_2 : ℂ) * x3,
       (_SQRT1_2 : ℂ) * x0 + ((-_SQRT1_2 : ℝ) : ℂ) * x2,
       (_SQRT1_2 : ℂ) * x1 + ((-_SQRT1_2 : ℝ) : ℂ) * x3] := rfl

theorem H_on_qubit1_of_two (x0 x1 x2 x3 : Cplx) :
    apply_single_qubit_gate [x0, x1, x2, x3] GATE_H 1 2 =
      [(_SQRT1_2 : ℂ) * x0 + (_SQRT1_2 : ℂ) * x1,
       (_SQRT1_2 : ℂ) * x0 + ((-_SQRT1_2 : ℝ) : ℂ) * x1,
       (_SQRT1_2 : ℂ) * x2 + (_SQRT1_2 : ℂ) * x3,
       (_SQRT1_2 : ℂ) * x2 + ((-_SQRT1_2 : ℝ) : ℂ) * x3] := rfl

theorem H_on_qubit0_of_three (x0 x1 x2 x3 x4 x5 x6 x7 : Cplx) :
    apply_single_qubit_gate [x0, x1, x2, x3, x4, x5, x6, x7] GATE_H 0 3 =
      [(_SQRT1_2 : ℂ) * x0 + (_SQRT1_2 : ℂ) * x4,
       (_SQRT1_2 : ℂ) * x1 + (_SQRT1_2 : ℂ) * x5,
       (_SQRT1_2 : ℂ) * x2 + (_SQRT1_2 : ℂ) * x6,
       (_SQRT1_2 : ℂ) * x3 + (_SQRT1_2 : ℂ) * x7,
       (_SQRT1_2 : ℂ) * x0 + ((-_SQRT1_2 : ℝ) : ℂ) * x4,
       (_SQRT1_2 : ℂ) * x1 + ((-_SQRT1_2 : ℝ) : ℂ) * x5,
       (_SQRT1_2 : ℂ) * x2 + ((-_SQRT1_2 : ℝ) : ℂ) * x6,
       (_SQRT1_2 : ℂ) * x3 + ((-_SQRT1_2 : ℝ) : ℂ) * x7] := rfl

theorem H_on_qubit1_of_three (x0 x1 x2 x3 x4 x5 x6 x7 : Cplx) :
    apply_single_qubit_gate [x0, x1, x2, x3, x4, x5, x6, x7] GATE_H 1 3 =
      [(_SQRT1_2 : ℂ) * x0 + (_SQRT1_2 : ℂ) * x2,
       (_SQRT1_2 : ℂ) * x1 + (_SQRT1_2 : ℂ) * x3,
       (_SQRT1_2 : ℂ) * x0 + ((-_SQRT1_2 : ℝ) : ℂ) * x2,
       (_SQRT1_2 : ℂ) * x1 + ((-_SQRT1_2 : ℝ) : ℂ) * x3,
       (_SQRT1_2 : ℂ) * x4 + (_SQRT1_2 : ℂ) * x6,
       (_SQRT1_2 : ℂ) * x5 + (_SQRT1_2 : ℂ) * x7,
       (_SQRT1_2 : ℂ) * x4 + ((-_SQRT1_2 : ℝ) : ℂ) * x6,
       (_SQRT1_2 : ℂ) * x5 + ((-_SQRT1_2 : ℝ) : ℂ) * x7] := rfl

theorem H_on_qubit2_of_three (x0 x1 x2 x3 x4 x5 x6 x7 : Cplx) :
    apply_single_qubit_gate [x0, x1, x2, x3, x4, x5, x6, x7] GATE_H 2 3 =
      [(_SQRT1_2 : ℂ) * x0 + (_SQRT1_2 : ℂ) * x1,
       (_SQRT1_2 : ℂ) * x0 + ((-_SQRT1_2 : ℝ) : ℂ) * x1,
       (_SQRT1_2 : ℂ) * x2 + (_SQRT1_2 : ℂ) * x3,
       (_SQRT1_2 : ℂ) * x2 + ((-_SQRT1_2 : ℝ) : ℂ) * x3,
       (_SQRT1_2 : ℂ) * x4 + (_SQRT1_2 : ℂ) * x5,
       (_SQRT1_2 : ℂ) * x4 + ((-_SQRT1_2 : ℝ) : ℂ) * x5,
       (_SQRT1_2 : ℂ) * x6 + (_SQRT1_2 : ℂ) * x7,
       (_SQRT1_2 : ℂ) * x6 + ((-_SQRT1_2 : ℝ) : ℂ) * x7] := rfl

theorem X_on_qubit2_of_three (x0 x1 x2 x3 x4 x5 x6 x7 : Cplx) :
    apply_single_qubit_gate [x0, x1, x2, x3, x4, x5, x6, x7] GATE_X 2 3 =
      [(0 : ℂ) * x0 + (1 : ℂ) * x1, (1 : ℂ) * x0 + (0 : ℂ) * x1,
       (0 : ℂ) * x2 + (1 : ℂ) * x3, (1 : ℂ) * x2 + (0 : ℂ) * x3,
       (0 : ℂ) * x4 + (1 : ℂ) * x5, (1 : ℂ) * x4 + (0 : ℂ) * x5,
       (0 : ℂ) * x6 + (1 : ℂ) * x7, (1 : ℂ) * x6 + (0 : ℂ) * x7] := rfl

theorem Z_on_qubit2_of_three (x0 x1 x2 x3 x4 x5 x6 x7 : Cplx) :
    apply_single_qubit_gate [x0, x1, x2, x3, x4, x5, x6, x7] GATE_Z 2 3 =
      [(1 : ℂ) * x0 + (0 : ℂ) * x1, (0 : ℂ) * x0 + ((-1 : ℝ) : ℂ) * x1,
       (1 : ℂ) * x2 + (0 : ℂ) * x3, (0 : ℂ) * x2 + ((-1 : ℝ) : ℂ) * x3,
       (1 : ℂ) * x4 + (0 : ℂ) * x5, (0 : ℂ) * x4 + ((-1 : ℝ) : ℂ) * x5,
       (1 : ℂ) * x6 + (0 : ℂ) * x7, (0 : ℂ) * x6 + ((-1 : ℝ) : ℂ) * x7] := rfl

theorem two_gate_amp_eval (g : GateMatrix) (bit0 bit1 : ℕ) (s : StateVector) (j : ℕ) :
    two_gate_amp g bit0 bit1 s j
      = complex_mul (mentry g (two_gate_row bit0 bit1 j) 0)
          (s.getD (two_gate_member bit0 bit1 (two_gate_base bit0 bit1 j) 0) ZERO)
        + complex_mul (mentry g (two_gate_row bit0 bit1 j) 1)
          (s.getD (two_gate_member bit0 bit1 (two_gate_base bit0 bit1 j) 1) ZERO)
        + complex_mul (mentry g (two_gate_row bit0 bit1 j) 2)
          (s.getD (two_gate_member bit0 bit1 (two_gate_base bit0 bit1 j) 2) ZERO)
        + complex_mul (mentry g (two_gate_row bit0 bit1 j) 3)
          (s.getD (two_gate_member bit0 bit1 (two_gate_base bit0 bit1 j) 3) ZERO) := by
  rw [two_gate_amp, show (4 : ℕ) = 3 + 1 from rfl, Finset.sum_range_succ,
    Finset.sum_range_succ, Finset.sum_range_succ, Finset.sum_range_succ,
    Finset.sum_range_zero, zero_add]

theorem CNOT_on_12_of_three (x0 x1 x2 x3 x4 x5 x6 x7 : Cplx) :
    apply_two_qubit_gate [x0, x1, x2, x3, x4, x5, x6, x7] GATE_CNOT 1 2 3 = [x0, x1, x3, x2, x4, x5, x7, x6] := by
  obtain ⟨hlen, hget⟩ := apply_two_qubit_gate_pointwise [x0, x1, x2, x3, x4, x5, x6, x7]
    GATE_CNOT 1 2 3 (by norm_num) (by norm_num) (by norm_num) rfl
  apply List.ext_getElem (by rw [hlen]; rfl)
  intro i h1 h2
  have hi : i < 2 ^ 3 := by rw [← hlen]; exact h1
  rw [← List.getD_eq_getElem _ ZERO h1, hget i hi]
  simp only [show (3:ℕ) - 1 - 1 = 1 from rfl, show (3:ℕ) - 1 - 2 = 0 from rfl]
  have hi8 : i < 8 := by omega
  interval_cases i
  · rw [two_gate_amp_eval, show two_gate_row 1 0 0 = 0 from by decide,
      show two_gate_base 1 0 0 = 0 from by decide,
      show two_gate_member 1 0 0 0 = 0 from by decide,
      show two_gate_member 1 0 0 1 = 1 from by decide,
      show two_gate_member 1 0 0 2 = 2 from by decide,
      show two_gate_member 1 0 0 3 = 3 from by decide]
    norm_num [mentry, GATE_CNOT, complex_mul_eq, complex_add_eq, ZERO_eq,
      List.getD_cons_zero, List.getD_cons_succ]
    apply Complex.ext <;>
      simp [Complex.add_re, Complex.add_im, Complex.mul_re, Complex.mul_im] <;> ring
  · rw [two_gate_amp_eval, show two_gate_row 1 0 1 = 1 from by decide,
      show two_gate_base 1 0 1 = 0 from by decide,
      show two_gate_member 1 0 0 0 = 0 from by decide,
      show two_gate_member 1 0 0 1 = 1 from by decide,
      show two_gate_member 1 0 0 2 = 2 from by decide,
      show two_gate_member 1 0 0 3 = 3 from by decide]
    norm_num [mentry, GATE_CNOT, complex_mul_eq, complex_add_eq, ZERO_eq,
      List.getD_cons_zero, List.getD_cons_succ]
    apply Complex.ext <;>
      simp [Complex.add_re, Complex.add_im, Complex.mul_re, Complex.mul_im] <;> ring
  · rw [two_gate_amp_eval, show two_gate_row 1 0 2 = 2 from by decide,
      show two_gate_base 1 0 2 = 0 from by decide,
      show two_gate_member 1 0 0 0 = 0 from by decide,
      show two_gate_member 1 0 0 1 = 1 from by decide,
      show two_gate_member 1 0 0 2 = 2 from by decide,
      show two_gate_member 1 0 0 3 = 3 from by decide]
    norm_num [mentry, GATE_CNOT, complex_mul_eq, complex_add_eq, ZERO_eq,
      List.getD_cons_zero, List.getD_cons_succ]
    apply Complex.ext <;>
      simp [Complex.add_re, Complex.add_im, Complex.mul_re, Complex.mul_im] <;> ring
  · rw [two_gate_amp_eval, show two_gate_row 1 0 3 = 3 from by decide,
      show two_gate_base 1 0 3 = 0 from by decide,
      show two_gate_member 1 0 0 0 = 0 from by decide,
      show two_gate_member 1 0 0 1 = 1 from by decide,
      show two_gate_member 1 0 0 2 = 2 from by decide,
      show two_gate_member 1 0 0 3 = 3 from by decide]
    norm_num [mentry, GATE_CNOT, complex_mul_eq, complex_add_eq, ZERO_eq,
      List.getD_cons_zero, List.getD_cons_succ]
    apply Complex.ext <;>
      simp [Complex.add_re, Complex.add_im, Complex.mul_re, Complex.mul_im] <;> ring
  · rw [two_gate_amp_eval, show two_gate_row 1 0 4 = 0 from by decide,
      show two_gate_base 1 0 4 = 4 from by decide,
      show two_gate_member 1 0 4 0 = 4 from by decide,
      show two_gate_member 1 0 4 1 = 5 from by decide,
      show two_gate_member 1 0 4 2 = 6 from by decide,
      show two_gate_member 1 0 4 3 = 7 from by decide]
    norm_num [mentry, GATE_CNOT, complex_mul_eq, complex_add_eq, ZERO_eq,
      List.getD_cons_zero, List.getD_cons_succ]
    apply Complex.ext <;>
      simp [Complex.add_re, Complex.add_im, Complex.mul_re, Complex.mul_im] <;> ring
  · rw [two_gate_amp_eval, show two_gate_row 1 0 5 = 1 from by decide,
      show two_gate_base 1 0 5 = 4 from by decide,
      show two_gate_member 1 0 4 0 = 4 from by decide,
      show two_gate_member 1 0 4 1 = 5 from by decide,
      show two_gate_member 1 0 4 2 = 6 from by decide,
      show two_gate_member 1 0 4 3 = 7 from by decide]
    norm_num [mentry, GATE_CNOT, complex_mul_eq, complex_add_eq, ZERO_eq,
      List.getD_cons_zero, List.getD_cons_succ]
    apply Complex.ext <;>
      simp [Complex.add_re, Complex.add_im, Complex.mul_re, Complex.mul_im] <;> ring
  · rw [two_gate_amp_eval, show two_gate_row 1 0 6 = 2 from by decide,
      show two_gate_base 1 0 6 = 4 from by decide,
      show two_gate_member 1 0 4 0 = 4 from by decide,
      show two_gate_member 1 0 4 1 = 5 from by decide,
      show two_gate_member 1 0 4 2 = 6 from by decide,
      show two_gate_member 1 0 4 3 = 7 from by decide]
    norm_num [mentry, GATE_CNOT, complex_mul_eq, complex_add_eq, ZERO_eq,
      List.getD_cons_zero, List.getD_cons_succ]
    apply Complex.ext <;>
      simp [Complex.add_re, Complex.add_im, Complex.mul_re, Complex.mul_im] <;> ring
  · rw [two_gate_amp_eval, show two_gate_row 1 0 7 = 3 from by decide,
      show two_gate_base 1 0 7 = 4 from by decide,
      show two_gate_member 1 0 4 0 = 4 from by decide,
      show two_gate_member 1 0 4 1 = 5 from by decide,
      show two_gate_member 1 0 4 2 = 6 from by decide,
      show two_gate_member 1 0 4 3 = 7 from by decide]
    norm_num [mentry, GATE_CNOT, complex_mul_eq, complex_add_eq, ZERO_eq,
      List.getD_cons_zero, List.getD_cons_succ]
    apply Complex.ext <;>
      simp [Complex.add_re, Complex.add_im, Complex.mul_re, Complex.mul_im] <;> ring

theorem CNOT_on_01_of_three (x0 x1 x2 x3 x4 x5 x6 x7 : Cplx) :
    apply_two_qubit_gate [x0, x1, x2, x3, x4, x5, x6, x7] GATE_CNOT 0 1 3 = [x0, x1, x2, x3, x6, x7, x4, x5] := by
  obtain ⟨hlen, hget⟩ := apply_two_qubit_gate_pointwise [x0, x1, x2, x3, x4, x5, x6, x7]
    GATE_CNOT 0 1 3 (by norm_num) (by norm_num) (by norm_num) rfl
  apply List.ext_getElem (by rw [hlen]; rfl)
  intro i h1 h2
  have hi : i < 2 ^ 3 := by rw [← hlen]; exact h1
  rw [← List.getD_eq_getElem _ ZERO h1, hget i hi]
  simp only [show (3:ℕ) - 1 - 0 = 2 from rfl, show (3:ℕ) - 1 - 1 = 1 from rfl]
  have hi8 : i < 8 := by omega
  interval_cases i
  · rw [two_gate_amp_eval, show two_gate_row 2 1 0 = 0 from by decide,
      show two_gate_base 2 1 0 = 0 from by decide,
      show two_gate_member 2 1 0 0 = 0 from by decide,
      show two_gate_member 2 1 0 1 = 2 from by decide,
      show two_gate_member 2 1 0 2 = 4 from by decide,
      show two_gate_member 2 1 0 3 = 6 from by decide]
    norm_num [mentry, GATE_CNOT, complex_mul_eq, complex_add_eq, ZERO_eq,
      List.getD_cons_zero, List.getD_cons_succ]
    apply Complex.ext <;>
      simp [Complex.add_re, Complex.add_im, Complex.mul_re, Complex.mul_im] <;> ring
  · rw [two_gate_amp_eval, show two_gate_row 2 1 1 = 0 from by decide,
      show two_gate_base 2 1 1 = 1 from by decide,
      show two_gate_member 2 1 1 0 = 1 from by decide,
      show two_gate_member 2 1 1 1 = 3 from by decide,
      show two_gate_member 2 1 1 2 = 5 from by decide,
      show two_gate_member 2 1 1 3 = 7 from by decide]
    norm_num [mentry, GATE_CNOT, complex_mul_eq, complex_add_eq, ZERO_eq,
      List.getD_cons_zero, List.getD_cons_succ]
    apply Complex.ext <;>
      simp [Complex.add_re, Complex.add_im, Complex.mul_re, Complex.mul_im] <;> ring
  · rw [two_gate_amp_eval, show two_gate_row 2 1 2 = 1 from by decide,
      show two_gate_base 2 1 2 = 0 from by decide,
      show two_gate_member 2 1 0 0 = 0 from by decide,
      show two_gate_member 2 1 0 1 = 2 from by decide,
      show two_gate_member 2 1 0 2 = 4 from by decide,
      show two_gate_member 2 1 0 3 = 6 from by decide]
    norm_num [mentry, GATE_CNOT, complex_mul_eq, complex_add_eq, ZERO_eq,
      List.getD_cons_zero, List.getD_cons_succ]
    apply Complex.ext <;>
      simp [Complex.add_re, Complex.add_im, Complex.mul_re, Complex.mul_im] <;> ring
  · rw [two_gate_amp_eval, show two_gate_row 2 1 3 = 1 from by decide,
      show two_gate_base 2 1 3 = 1 from by decide,
      show two_gate_member 2 1 1 0 = 1 from by decide,
      show two_gate_member 2 1 1 1 = 3 from by decide,
      show two_gate_member 2 1 1 2 = 5 from by decide,
      show two_gate_member 2 1 1 3 = 7 from by decide]
    norm_num [mentry, GATE_CNOT, complex_mul_eq, complex_add_eq, ZERO_eq,
      List.getD_cons_zero, List.getD_cons_succ]
    apply Complex.ext <;>
      simp [Complex.add_re, Complex.add_im, Complex.mul_re, Complex.mul_im] <;> ring
  · rw [two_gate_amp_eval, show two_gate_row 2 1 4 = 2 from by decide,
      show two_gate_base 2 1 4 = 0 from by decide,
      show two_gate_member 2 1 0 0 = 0 from by decide,
      show two_gate_member 2 1 0 1 = 2 from by decide,
      show two_gate_member 2 1 0 2 = 4 from by decide,
      show two_gate_member 2 1 0 3 = 6 from by decide]
    norm_num [mentry, GATE_CNOT, complex_mul_eq, complex_add_eq, ZERO_eq,
      List.getD_cons_zero, List.getD_cons_succ]
    apply Complex.ext <;>
      simp [Complex.add_re, Complex.add_im, Complex.mul_re, Complex.mul_im] <;> ring
  · rw [two_gate_amp_eval, show two_gate_row 2 1 5 = 2 from by decide,
      show two_gate_base 2 1 5 = 1 from by decide,
      show two_gate_member 2 1 1 0 = 1 from by decide,
      show two_gate_member 2 1 1 1 = 3 from by decide,
      show two_gate_member 2 1 1 2 = 5 from by decide,
      show two_gate_member 2 1 1 3 = 7 from by decide]
    norm_num [mentry, GATE_CNOT, complex_mul_eq, complex_add_eq, ZERO_eq,
      List.getD_cons_zero, List.getD_cons_succ]
    apply Complex.ext <;>
      simp [Complex.add_re, Complex.add_im, Complex.mul_re, Complex.mul_im] <;> ring
  · rw [two_gate_amp_eval, show two_gate_row 2 1 6 = 3 from by decide,
      show two_gate_base 2 1 6 = 0 from by decide,
      show two_gate_member 2 1 0 0 = 0 from by decide,
      show two_gate_member 2 1 0 1 = 2 from by decide,
      show two_gate_member 2 1 0 2 = 4 from by decide,
      show two_gate_member 2 1 0 3 = 6 from by decide]
    norm_num [mentry, GATE_CNOT, complex_mul_eq, complex_add_eq, ZERO_eq,
      List.getD_cons_zero, List.getD_cons_succ]
    apply Complex.ext <;>
      simp [Complex.add_re, Complex.add_im, Complex.mul_re, Complex.mul_im] <;> ring
  · rw [two_gate_amp_eval, show two_gate_row 2 1 7 = 3 from by decide,
      show two_gate_base 2 1 7 = 1 from by decide,
      show two_gate_member 2 1 1 0 = 1 from by decide,
      show two_gate_member 2 1 1 1 = 3 from by decide,
      show two_gate_member 2 1 1 2 = 5 from by decide,
      show two_gate_member 2 1 1 3 = 7 from by decide]
    norm_num [mentry, GATE_CNOT, complex_mul_eq, complex_add_eq, ZERO_eq,
      List.getD_cons_zero, List.getD_cons_succ]
    apply Complex.ext <;>
      simp [Complex.add_re, Complex.add_im, Complex.mul_re, Complex.mul_im] <;> ring

-- ── Evaluation of the Grover pipeline at the spec\'s two instances ─────

theorem sqrt1_2_sq : _SQRT1_2 * _SQRT1_2 = 1 / 2 := by
  rw [_SQRT1_2, div_mul_div_comm, one_mul, Real.mul_self_sqrt (by norm_num : (0:ℝ) ≤ 2)]

theorem sqrt1_2_sq_c : ((_SQRT1_2 : ℝ) : ℂ) * ((_SQRT1_2 : ℝ) : ℂ) = 1 / 2 := by
  rw [← Complex.ofReal_mul, sqrt1_2_sq]
  norm_num

/-- `r = floor(pi/4 * sqrt(4/1)) = floor(pi/2) = 1`. -/
theorem grover_iterations_two : grover_iterations 2 1 = 1 := by
  rw [grover_iterations, show ((1 <<< 2 : ℕ) : ℝ) = 4 by norm_num [Nat.shiftLeft_eq],
    show ((1 : ℕ) : ℝ) = 1 from by norm_num, show ((4:ℝ)/1 : ℝ) = 2^2 by norm_num,
    Real.sqrt_sq (by norm_num)]
  rw [Int.floor_eq_iff]
  push_cast
  constructor
  · nlinarith [Real.pi_gt_3141592]
  · nlinarith [Real.pi_lt_315]

/-- `r = floor(pi/4 * sqrt(8/1)) = 2`. -/
theorem grover_iterations_three : grover_iterations 3 1 = 2 := by
  rw [grover_iterations, show ((1 <<< 3 : ℕ) : ℝ) = 8 by norm_num [Nat.shiftLeft_eq],
    show ((1 : ℕ) : ℝ) = 1 from by norm_num, show ((8:ℝ)/1 : ℝ) = 8 by norm_num]
  have hl : (2.82 : ℝ) < Real.sqrt 8 := by
    rw [show (2.82 : ℝ) = Real.sqrt (2.82^2) by rw [Real.sqrt_sq (by norm_num)]]
    apply Real.sqrt_lt_sqrt (by positivity)
    norm_num
  have hu : Real.sqrt 8 < 2.83 := by
    rw [show (2.83 : ℝ) = Real.sqrt (2.83^2) by rw [Real.sqrt_sq (by norm_num)]]
    apply Real.sqrt_lt_sqrt (by positivity)
    norm_num
  rw [Int.floor_eq_iff]
  push_cast
  constructor
  · nlinarith [Real.pi_gt_3141592, hl]
  · nlinarith [Real.pi_lt_315, hu, Real.pi_gt_3141592]

/-- `grover_state` is literally: Hadamard layer, then `r` rounds of
oracle followed by diffusion. -/
theorem grover_state_eval (n : ℕ) (ts : List ℕ) :
    grover_state n ts
      = (fun s => apply_grover_diffusion (apply_grover_oracle s ts))^[(grover_iterations n ts.length).toNat]
          ((List.range n).foldl (fun s q => apply_single_qubit_gate s GATE_H q n)
            (create_zero_state n)) := rfl

theorem iterate_two {α : Type*} (f : α → α) (x : α) : f^[2] x = f (f x) := rfl

/-- The Hadamard layer on 2 qubits yields the uniform state `1/2·(1,1,1,1)`. -/
theorem H_fold_two :
    (List.range 2).foldl (fun s q => apply_single_qubit_gate s GATE_H q 2)
      (create_zero_state 2)
      = [((1/2 : ℝ) : ℂ), ↑(1/2 : ℝ), ↑(1/2 : ℝ), ↑(1/2 : ℝ)] := by
  rw [show List.range 2 = [0, 1] from rfl, List.foldl_cons, List.foldl_cons, List.foldl_nil,
    show create_zero_state 2 = [(1 : ℂ), 0, 0, 0] from rfl, H_on_qubit0_of_two,
    H_on_qubit1_of_two]
  push_cast
  simp only [List.cons.injEq, and_true]
  refine ⟨?_, ?_, ?_, ?_⟩ <;> linear_combination sqrt1_2_sq_c

/-- The Hadamard layer on 3 qubits yields the uniform state with
amplitude `1/(2*sqrt(2))`. -/
theorem H_fold_three :
    (List.range 3).foldl (fun s q => apply_single_qubit_gate s GATE_H q 3)
      (create_zero_state 3)
      = [((_SQRT1_2 / 2 : ℝ) : ℂ), ↑(_SQRT1_2 / 2 : ℝ), ↑(_SQRT1_2 / 2 : ℝ), ↑(_SQRT1_2 / 2 : ℝ),
         ↑(_SQRT1_2 / 2 : ℝ), ↑(_SQRT1_2 / 2 : ℝ), ↑(_SQRT1_2 / 2 : ℝ), ↑(_SQRT1_2 / 2 : ℝ)] := by
  rw [show List.range 3 = [0, 1, 2] from rfl, List.foldl_cons, List.foldl_cons, List.foldl_cons,
    List.foldl_nil,
    show create_zero_state 3 = [(1 : ℂ), 0, 0, 0, 0, 0, 0, 0] from rfl, H_on_qubit0_of_three,
    H_on_qubit1_of_three, H_on_qubit2_of_three]
  push_cast
  simp only [List.cons.injEq, and_true]
  refine ⟨?_, ?_, ?_, ?_, ?_, ?_, ?_, ?_⟩ <;>
    linear_combination ((_SQRT1_2 : ℝ) : ℂ) * sqrt1_2_sq_c

theorem oracle4_0 (a0 a1 a2 a3 : ℝ) :
    apply_grover_oracle [((a0 : ℝ) : ℂ), ↑a1, ↑a2, ↑a3] [0]
      = [((-a0 : ℝ) : ℂ), ↑a1, ↑a2, ↑a3] := by
  simp [apply_grover_oracle, complex_neg, Complex.ext_iff]

theorem oracle4_1 (a0 a1 a2 a3 : ℝ) :
    apply_grover_oracle [((a0 : ℝ) : ℂ), ↑a1, ↑a2, ↑a3] [1]
      = [((a0 : ℝ) : ℂ), ↑(-a1), ↑a2, ↑a3] := by
  simp [apply_grover_oracle, complex_neg, Complex.ext_iff]

theorem oracle4_2 (a0 a1 a2 a3 : ℝ) :
    apply_grover_oracle [((a0 : ℝ) : ℂ), ↑a1, ↑a2, ↑a3] [2]
      = [((a0 : ℝ) : ℂ), ↑a1, ↑(-a2), ↑a3] := by
  simp [apply_grover_oracle, complex_neg, Complex.ext_iff]

theorem oracle4_3 (a0 a1 a2 a3 : ℝ) :
    apply_grover_oracle [((a0 : ℝ) : ℂ), ↑a1, ↑a2, ↑a3] [3]
      = [((a0 : ℝ) : ℂ), ↑a1, ↑a2, ↑(-a3)] := by
  simp [apply_grover_oracle, complex_neg, Complex.ext_iff]

theorem diffusion4_real (a0 a1 a2 a3 : ℝ) :
    apply_grover_diffusion [((a0 : ℝ) : ℂ), ↑a1, ↑a2, ↑a3]
      = [(((a0+a1+a2+a3)/2 - a0 : ℝ) : ℂ), ↑((a0+a1+a2+a3)/2 - a1), ↑((a0+a1+a2+a3)/2 - a2), ↑((a0+a1+a2+a3)/2 - a3)] := by
  simp only [apply_grover_diffusion, List.foldl_cons, List.foldl_nil, List.map_cons,
    List.map_nil, List.length_cons, List.length_nil]
  norm_num [Complex.ext_iff]
  ring

theorem mp4_0 (z0 z1 z2 z3 : Cplx) :
    (measurement_probabilities [z0, z1, z2, z3]).getD 0 0 = complex_abs_sq z0 := rfl

theorem mp4_1 (z0 z1 z2 z3 : Cplx) :
    (measurement_probabilities [z0, z1, z2, z3]).getD 1 0 = complex_abs_sq z1 := rfl

theorem mp4_2 (z0 z1 z2 z3 : Cplx) :
    (measurement_probabilities [z0, z1, z2, z3]).getD 2 0 = complex_abs_sq z2 := rfl

theorem mp4_3 (z0 z1 z2 z3 : Cplx) :
    (measurement_probabilities [z0, z1, z2, z3]).getD 3 0 = complex_abs_sq z3 := rfl

theorem oracle8_0 (a0 a1 a2 a3 a4 a5 a6 a7 : ℝ) :
    apply_grover_oracle [((a0 : ℝ) : ℂ), ↑a1, ↑a2, ↑a3, ↑a4, ↑a5, ↑a6, ↑a7] [0]
      = [((-a0 : ℝ) : ℂ), ↑a1, ↑a2, ↑a3, ↑a4, ↑a5, ↑a6, ↑a7] := by
  simp [apply_grover_oracle, complex_neg, Complex.ext_iff]

theorem oracle8_1 (a0 a1 a2 a3 a4 a5 a6 a7 : ℝ) :
    apply_grover_oracle [((a0 : ℝ) : ℂ), ↑a1, ↑a2, ↑a3, ↑a4, ↑a5, ↑a6, ↑a7] [1]
      = [((a0 : ℝ) : ℂ), ↑(-a1), ↑a2, ↑a3, ↑a4, ↑a5, ↑a6, ↑a7] := by
  simp [apply_grover_oracle, complex_neg, Complex.ext_iff]

theorem oracle8_2 (a0 a1 a2 a3 a4 a5 a6 a7 : ℝ) :
    apply_grover_oracle [((a0 : ℝ) : ℂ), ↑a1, ↑a2, ↑a3, ↑a4, ↑a5, ↑a6, ↑a7] [2]
      = [((a0 : ℝ) : ℂ), ↑a1, ↑(-a2), ↑a3, ↑a4, ↑a5, ↑a6, ↑a7] := by
  simp [apply_grover_oracle, complex_neg, Complex.ext_iff]

theorem oracle8_3 (a0 a1 a2 a3 a4 a5 a6 a7 : ℝ) :
    apply_grover_oracle [((a0 : ℝ) : ℂ), ↑a1, ↑a2, ↑a3, ↑a4, ↑a5, ↑a6, ↑a7] [3]
      = [((a0 : ℝ) : ℂ), ↑a1, ↑a2, ↑(-a3), ↑a4, ↑a5, ↑a6, ↑a7] := by
  simp [apply_grover_oracle, complex_neg, Complex.ext_iff]

theorem oracle8_4 (a0 a1 a2 a3 a4 a5 a6 a7 : ℝ) :
    apply_grover_oracle [((a0 : ℝ) : ℂ), ↑a1, ↑a2, ↑a3, ↑a4, ↑a5, ↑a6, ↑a7] [4]
      = [((a0 : ℝ) : ℂ), ↑a1, ↑a2, ↑a3, ↑(-a4), ↑a5, ↑a6, ↑a7] := by
  simp [apply_grover_oracle, complex_neg, Complex.ext_iff]

theorem oracle8_5 (a0 a1 a2 a3 a4 a5 a6 a7 : ℝ) :
    apply_grover_oracle [((a0 : ℝ) : ℂ), ↑a1, ↑a2, ↑a3, ↑a4, ↑a5, ↑a6, ↑a7] [5]
      = [((a0 : ℝ) : ℂ), ↑a1, ↑a2, ↑a3, ↑a4, ↑(-a5), ↑a6, ↑a7] := by
  simp [apply_grover_oracle, complex_neg, Complex.ext_iff]

theorem oracle8_6 (a0 a1 a2 a3 a4 a5 a6 a7 : ℝ) :
    apply_grover_oracle [((a0 : ℝ) : ℂ), ↑a1, ↑a2, ↑a3, ↑a4, ↑a5, ↑a6, ↑a7] [6]
      = [((a0 : ℝ) : ℂ), ↑a1, ↑a2, ↑a3, ↑a4, ↑a5, ↑(-a6), ↑a7] := by
  simp [apply_grover_oracle, complex_neg, Complex.ext_iff]

theorem oracle8_7 (a0 a1 a2 a3 a4 a5 a6 a7 : ℝ) :
    apply_grover_oracle [((a0 : ℝ) : ℂ), ↑a1, ↑a2, ↑a3, ↑a4, ↑a5, ↑a6, ↑a7] [7]
      = [((a0 : ℝ) : ℂ), ↑a1, ↑a2, ↑a3, ↑a4, ↑a5, ↑a6, ↑(-a7)] := by
  simp [apply_grover_oracle, complex_neg, Complex.ext_iff]

theorem diffusion8_real (a0 a1 a2 a3 a4 a5 a6 a7 : ℝ) :
    apply_grover_diffusion [((a0 : ℝ) : ℂ), ↑a1, ↑a2, ↑a3, ↑a4, ↑a5, ↑a6, ↑a7]
      = [(((a0+a1+a2+a3+a4+a5+a6+a7)/4 - a0 : ℝ) : ℂ), ↑((a0+a1+a2+a3+a4+a5+a6+a7)/4 - a1), ↑((a0+a1+a2+a3+a4+a5+a6+a7)/4 - a2), ↑((a0+a1+a2+a3+a4+a5+a6+a7)/4 - a3), ↑((a0+a1+a2+a3+a4+a5+a6+a7)/4 - a4), ↑((a0+a1+a2+a3+a4+a5+a6+a7)/4 - a5), ↑((a0+a1+a2+a3+a4+a5+a6+a7)/4 - a6), ↑((a0+a1+a2+a3+a4+a5+a6+a7)/4 - a7)] := by
  simp only [apply_grover_diffusion, List.foldl_cons, List.foldl_nil, List.map_cons,
    List.map_nil, List.length_cons, List.length_nil]
  norm_num [Complex.ext_iff]
  ring

theorem mp8_0 (z0 z1 z2 z3 z4 z5 z6 z7 : Cplx) :
    (measurement_probabilities [z0, z1, z2, z3, z4, z5, z6, z7]).getD 0 0 = complex_abs_sq z0 := rfl

theorem mp8_1 (z0 z1 z2 z3 z4 z5 z6 z7 : Cplx) :
    (measurement_probabilities [z0, z1, z2, z3, z4, z5, z6, z7]).getD 1 0 = complex_abs_sq z1 := rfl

theorem mp8_2 (z0 z1 z2 z3 z4 z5 z6 z7 : Cplx) :
    (measurement_probabilities [z0, z1, z2, z3, z4, z5, z6, z7]).getD 2 0 = complex_abs_sq z2 := rfl

theorem mp8_3 (z0 z1 z2 z3 z4 z5 z6 z7 : Cplx) :
    (measurement_probabilities [z0, z1, z2, z3, z4, z5, z6, z7]).getD 3 0 = complex_abs_sq z3 := rfl

theorem mp8_4 (z0 z1 z2 z3 z4 z5 z6 z7 : Cplx) :
    (measurement_probabilities [z0, z1, z2, z3, z4, z5, z6, z7]).getD 4 0 = complex_abs_sq z4 := rfl

theorem mp8_5 (z0 z1 z2 z3 z4 z5 z6 z7 : Cplx) :
    (measurement_probabilities [z0, z1, z2, z3, z4, z5, z6, z7]).getD 5 0 = complex_abs_sq z5 := rfl

theorem mp8_6 (z0 z1 z2 z3 z4 z5 z6 z7 : Cplx) :
    (measurement_probabilities [z0, z1, z2, z3, z4, z5, z6, z7]).getD 6 0 = complex_abs_sq z6 := rfl

theorem mp8_7 (z0 z1 z2 z3 z4 z5 z6 z7 : Cplx) :
    (measurement_probabilities [z0, z1, z2, z3, z4, z5, z6, z7]).getD 7 0 = complex_abs_sq z7 := rfl

/-- For 2 qubits and a single target, one Grover round reaches the target with probability exactly 1. -/
theorem grover2_prob (t : ℕ) (ht : t < 4) :
    (measurement_probabilities (grover_state 2 [t])).getD t 0 = 1 := by
  rw [grover_state_eval]
  simp only [List.length_cons, List.length_nil, Nat.zero_add]
  rw [grover_iterations_two]
  simp only [Int.toNat_one, Function.iterate_one]
  rw [H_fold_two]
  interval_cases t
  · rw [oracle4_0, diffusion4_real, mp4_0]
    simp only [complex_abs_sq, Complex.ofReal_re, Complex.ofReal_im]
    norm_num
  · rw [oracle4_1, diffusion4_real, mp4_1]
    simp only [complex_abs_sq, Complex.ofReal_re, Complex.ofReal_im]
    norm_num
  · rw [oracle4_2, diffusion4_real, mp4_2]
    simp only [complex_abs_sq, Complex.ofReal_re, Complex.ofReal_im]
    norm_num
  · rw [oracle4_3, diffusion4_real, mp4_3]
    simp only [complex_abs_sq, Complex.ofReal_re, Complex.ofReal_im]
    norm_num

/-- For 3 qubits and a single target, two Grover rounds reach the target with probability 121/128. -/
theorem grover3_prob (t : ℕ) (ht : t < 8) :
    (measurement_probabilities (grover_state 3 [t])).getD t 0 = 121 / 128 := by
  rw [grover_state_eval]
  simp only [List.length_cons, List.length_nil, Nat.zero_add]
  rw [grover_iterations_three]
  rw [show ((2 : ℤ)).toNat = 2 from rfl]
  simp only [iterate_two]
  rw [H_fold_three]
  interval_cases t
  · rw [oracle8_0, diffusion8_real, oracle8_0, diffusion8_real, mp8_0]
    simp only [complex_abs_sq, Complex.ofReal_re, Complex.ofReal_im]
    linear_combination (121/64 : ℝ) * sqrt1_2_sq
  · rw [oracle8_1, diffusion8_real, oracle8_1, diffusion8_real, mp8_1]
    simp only [complex_abs_sq, Complex.ofReal_re, Complex.ofReal_im]
    linear_combination (121/64 : ℝ) * sqrt1_2_sq
  · rw [oracle8_2, diffusion8_real, oracle8_2, diffusion8_real, mp8_2]
    simp only [complex_abs_sq, Complex.ofReal_re, Complex.ofReal_im]
    linear_combination (121/64 : ℝ) * sqrt1_2_sq
  · rw [oracle8_3, diffusion8_real, oracle8_3, diffusion8_real, mp8_3]
    simp only [complex_abs_sq, Complex.ofReal_re, Complex.ofReal_im]
    linear_combination (121/64 : ℝ) * sqrt1_2_sq
  · rw [oracle8_4, diffusion8_real, oracle8_4, diffusion8_real, mp8_4]
    simp only [complex_abs_sq, Complex.ofReal_re, Complex.ofReal_im]
    linear_combination (121/64 : ℝ) * sqrt1_2_sq
  · rw [oracle8_5, diffusion8_real, oracle8_5, diffusion8_real, mp8_5]
    simp only [complex_abs_sq, Complex.ofReal_re, Complex.ofReal_im]
    linear_combination (121/64 : ℝ) * sqrt1_2_sq
  · rw [oracle8_6, diffusion8_real, oracle8_6, diffusion8_real, mp8_6]
    simp only [complex_abs_sq, Complex.ofReal_re, Complex.ofReal_im]
    linear_combination (121/64 : ℝ) * sqrt1_2_sq
  · rw [oracle8_7, diffusion8_real, oracle8_7, diffusion8_real, mp8_7]
    simp only [complex_abs_sq, Complex.ofReal_re, Complex.ofReal_im]
    linear_combination (121/64 : ℝ) * sqrt1_2_sq

/-- C2: the Grover generator computes `R = floor(pi/4 * sqrt(N/M))` (`N = 2^numQubits`,
`M = |targets|`) and alternates oracle then diffusion exactly `R` times; for
`numQubits = 2` with one target `R = 1` and the single round brings the target\'s
probability to exactly 1; for `numQubits = 3` with one target `R = 2` and after the
two rounds the target\'s probability exceeds 0.94 but stays below 1. -/
theorem grover_iteration_count_and_success (t2 t3 : ℕ) (h2 : t2 < 4) (h3 : t3 < 8) :
    grover_iterations 2 1 = 1 ∧ grover_iterations 3 1 = 2 ∧
    (∀ n ts, grover_state n ts
        = (fun s => apply_grover_diffusion (apply_grover_oracle s ts))^[(grover_iterations n ts.length).toNat]
            ((List.range n).foldl (fun s q => apply_single_qubit_gate s GATE_H q n)
              (create_zero_state n))) ∧
    (measurement_probabilities (grover_state 2 [t2])).getD t2 0 = 1 ∧
    0.94 < (measurement_probabilities (grover_state 3 [t3])).getD t3 0 ∧
    (measurement_probabilities (grover_state 3 [t3])).getD t3 0 < 1 := by
  refine ⟨grover_iterations_two, grover_iterations_three, fun n ts => grover_state_eval n ts,
    grover2_prob t2 h2, ?_, ?_⟩ <;> rw [grover3_prob t3 h3] <;> norm_num

/-- Witness for C2 at targets `0` and `0`. -/
theorem grover_iteration_count_and_success_witness :
    grover_iterations 2 1 = 1 ∧ grover_iterations 3 1 = 2 ∧
    (∀ n ts, grover_state n ts
        = (fun s => apply_grover_diffusion (apply_grover_oracle s ts))^[(grover_iterations n ts.length).toNat]
            ((List.range n).foldl (fun s q => apply_single_qubit_gate s GATE_H q n)
              (create_zero_state n))) ∧
    (measurement_probabilities (grover_state 2 [0])).getD 0 0 = 1 ∧
    0.94 < (measurement_probabilities (grover_state 3 [0])).getD 0 0 ∧
    (measurement_probabilities (grover_state 3 [0])).getD 0 0 < 1 :=
  grover_iteration_count_and_success 0 0 (by norm_num) (by norm_num)

-- ── Projection evaluation and Bloch-recovery helpers ──────────────────

theorem abs_sq_real_mul (r : ℝ) (z : Cplx) :
    complex_abs_sq ((r : ℂ) * z) = r * r * complex_abs_sq z := by
  simp only [complex_abs_sq, Complex.mul_re, Complex.mul_im, Complex.ofReal_re,
    Complex.ofReal_im]
  ring

theorem abs_sq_neg_c (z : Cplx) : complex_abs_sq (-z) = complex_abs_sq z := by
  simp only [complex_abs_sq, Complex.neg_re, Complex.neg_im]
  ring

theorem abs_sq_scale (r : ℝ) (z : Cplx) :
    complex_abs_sq (complex_scale r z) = r * r * complex_abs_sq z := by
  simp only [complex_abs_sq, complex_scale]
  ring

theorem abs_sq_ZERO : complex_abs_sq ZERO = 0 := by
  simp [complex_abs_sq, ZERO]

theorem inv_sqrt_half_sq : (1 / Real.sqrt (1/2)) * (1 / Real.sqrt (1/2)) = 2 := by
  rw [div_mul_div_comm, one_mul, Real.mul_self_sqrt (by norm_num : (0:ℝ) ≤ 1/2)]
  norm_num

theorem inv_sqrt_half_sq_c :
    ((1 / Real.sqrt (1/2) : ℝ) : ℂ) * ((1 / Real.sqrt (1/2) : ℝ) : ℂ) = 2 := by
  rw [← Complex.ofReal_mul, inv_sqrt_half_sq]
  norm_num

theorem sqrt_half_inv : (1:ℝ) / Real.sqrt (1/2) = Real.sqrt 2 := by
  rw [show (1/2 : ℝ) = 2⁻¹ by norm_num, Real.sqrt_inv]
  simp

theorem sqrt2_sq : Real.sqrt 2 * Real.sqrt 2 = 2 :=
  Real.mul_self_sqrt (by norm_num : (0:ℝ) ≤ 2)

theorem sqrt2_sq_c : ((Real.sqrt 2 : ℝ) : ℂ) * ((Real.sqrt 2 : ℝ) : ℂ) = 2 := by
  rw [← Complex.ofReal_mul, sqrt2_sq]
  norm_num

/-- When the outcome probability is `P ≥ EPSILON`, `project_and_normalize`
succeeds and maps each amplitude through zero-or-rescale. -/
theorem project_eval (state : StateVector) (qubit outcome num_qubits : ℕ) (P : ℝ)
    (hP : outcome_probability state qubit outcome num_qubits = P) (hge : EPSILON ≤ P) :
    project_and_normalize state qubit outcome num_qubits
      = some (state.enum.map (fun ka =>
          if (ka.1 >>> (num_qubits - 1 - qubit)) &&& 1 = outcome
          then complex_scale (1 / Real.sqrt P) ka.2 else ZERO)) := by
  simp only [project_and_normalize]
  rw [project_prob_eq, hP, if_neg (by linarith)]


theorem op_q0_m0 (z0 z1 z2 z3 z4 z5 z6 z7 : Cplx) :
    outcome_probability [z0, z1, z2, z3, z4, z5, z6, z7] 0 0 3 = complex_abs_sq z0 + complex_abs_sq z1 + complex_abs_sq z2 + complex_abs_sq z3 := by
  rw [outcome_probability]
  rw [show ([z0, z1, z2, z3, z4, z5, z6, z7] : StateVector).length = 8 from rfl]
  rw [Finset.sum_range_succ, Finset.sum_range_succ, Finset.sum_range_succ, Finset.sum_range_succ,
    Finset.sum_range_succ, Finset.sum_range_succ, Finset.sum_range_succ, Finset.sum_range_succ,
    Finset.sum_range_zero]
  norm_num [Nat.shiftRight_eq_div_pow, Nat.and_one_is_mod, List.getD_cons_zero,
    List.getD_cons_succ]

theorem op_q0_m1 (z0 z1 z2 z3 z4 z5 z6 z7 : Cplx) :
    outcome_probability [z0, z1, z2, z3, z4, z5, z6, z7] 0 1 3 = complex_abs_sq z4 + complex_abs_sq z5 + complex_abs_sq z6 + complex_abs_sq z7 := by
  rw [outcome_probability]
  rw [show ([z0, z1, z2, z3, z4, z5, z6, z7] : StateVector).length = 8 from rfl]
  rw [Finset.sum_range_succ, Finset.sum_range_succ, Finset.sum_range_succ, Finset.sum_range_succ,
    Finset.sum_range_succ, Finset.sum_range_succ, Finset.sum_range_succ, Finset.sum_range_succ,
    Finset.sum_range_zero]
  norm_num [Nat.shiftRight_eq_div_pow, Nat.and_one_is_mod, List.getD_cons_zero,
    List.getD_cons_succ]

theorem op_q1_m0 (z0 z1 z2 z3 z4 z5 z6 z7 : Cplx) :
    outcome_probability [z0, z1, z2, z3, z4, z5, z6, z7] 1 0 3 = complex_abs_sq z0 + complex_abs_sq z1 + complex_abs_sq z4 + complex_abs_sq z5 := by
  rw [outcome_probability]
  rw [show ([z0, z1, z2, z3, z4, z5, z6, z7] : StateVector).length = 8 from rfl]
  rw [Finset.sum_range_succ, Finset.sum_range_succ, Finset.sum_range_succ, Finset.sum_range_succ,
    Finset.sum_range_succ, Finset.sum_range_succ, Finset.sum_range_succ, Finset.sum_range_succ,
    Finset.sum_range_zero]
  norm_num [Nat.shiftRight_eq_div_pow, Nat.and_one_is_mod, List.getD_cons_zero,
    List.getD_cons_succ]

theorem op_q1_m1 (z0 z1 z2 z3 z4 z5 z6 z7 : Cplx) :
    outcome_probability [z0, z1, z2, z3, z4, z5, z6, z7] 1 1 3 = complex_abs_sq z2 + complex_abs_sq z3 + complex_abs_sq z6 + complex_abs_sq z7 := by
  rw [outcome_probability]
  rw [show ([z0, z1, z2, z3, z4, z5, z6, z7] : StateVector).length = 8 from rfl]
  rw [Finset.sum_range_succ, Finset.sum_range_succ, Finset.sum_range_succ, Finset.sum_range_succ,
    Finset.sum_range_succ, Finset.sum_range_succ, Finset.sum_range_succ, Finset.sum_range_succ,
    Finset.sum_range_zero]
  norm_num [Nat.shiftRight_eq_div_pow, Nat.and_one_is_mod, List.getD_cons_zero,
    List.getD_cons_succ]

theorem proj_map_q0_m0 (z0 z1 z2 z3 z4 z5 z6 z7 : Cplx) (c : ℝ) :
    (([z0, z1, z2, z3, z4, z5, z6, z7] : StateVector).enum.map (fun ka =>
        if (ka.1 >>> (3 - 1 - 0)) &&& 1 = 0 then complex_scale c ka.2 else ZERO))
      = [complex_scale c z0, complex_scale c z1, complex_scale c z2, complex_scale c z3, ZERO, ZERO, ZERO, ZERO] := by
  rw [show ([z0, z1, z2, z3, z4, z5, z6, z7] : StateVector).enum = [(0, z0), (1, z1), (2, z2), (3, z3), (4, z4), (5, z5), (6, z6), (7, z7)] from rfl]
  simp only [List.map_cons, List.map_nil]
  norm_num [Nat.shiftRight_eq_div_pow, Nat.and_one_is_mod]

theorem proj_map_q0_m1 (z0 z1 z2 z3 z4 z5 z6 z7 : Cplx) (c : ℝ) :
    (([z0, z1, z2, z3, z4, z5, z6, z7] : StateVector).enum.map (fun ka =>
        if (ka.1 >>> (3 - 1 - 0)) &&& 1 = 1 then complex_scale c ka.2 else ZERO))
      = [ZERO, ZERO, ZERO, ZERO, complex_scale c z4, complex_scale c z5, complex_scale c z6, complex_scale c z7] := by
  rw [show ([z0, z1, z2, z3, z4, z5, z6, z7] : StateVector).enum = [(0, z0), (1, z1), (2, z2), (3, z3), (4, z4), (5, z5), (6, z6), (7, z7)] from rfl]
  simp only [List.map_cons, List.map_nil]
  norm_num [Nat.shiftRight_eq_div_pow, Nat.and_one_is_mod]

theorem proj_map_q1_m0 (z0 z1 z2 z3 z4 z5 z6 z7 : Cplx) (c : ℝ) :
    (([z0, z1, z2, z3, z4, z5, z6, z7] : StateVector).enum.map (fun ka =>
        if (ka.1 >>> (3 - 1 - 1)) &&& 1 = 0 then complex_scale c ka.2 else ZERO))
      = [complex_scale c z0, complex_scale c z1, ZERO, ZERO, complex_scale c z4, complex_scale c z5, ZERO, ZERO] := by
  rw [show ([z0, z1, z2, z3, z4, z5, z6, z7] : StateVector).enum = [(0, z0), (1, z1), (2, z2), (3, z3), (4, z4), (5, z5), (6, z6), (7, z7)] from rfl]
  simp only [List.map_cons, List.map_nil]
  norm_num [Nat.shiftRight_eq_div_pow, Nat.and_one_is_mod]

theorem proj_map_q1_m1 (z0 z1 z2 z3 z4 z5 z6 z7 : Cplx) (c : ℝ) :
    (([z0, z1, z2, z3, z4, z5, z6, z7] : StateVector).enum.map (fun ka =>
        if (ka.1 >>> (3 - 1 - 1)) &&& 1 = 1 then complex_scale c ka.2 else ZERO))
      = [ZERO, ZERO, complex_scale c z2, complex_scale c z3, ZERO, ZERO, complex_scale c z6, complex_scale c z7] := by
  rw [show ([z0, z1, z2, z3, z4, z5, z6, z7] : StateVector).enum = [(0, z0), (1, z1), (2, z2), (3, z3), (4, z4), (5, z5), (6, z6), (7, z7)] from rfl]
  simp only [List.map_cons, List.map_nil]
  norm_num [Nat.shiftRight_eq_div_pow, Nat.and_one_is_mod]

theorem proj_step_q0_m0 (z0 z1 z2 z3 z4 z5 z6 z7 : Cplx)
    (hP : complex_abs_sq z0 + complex_abs_sq z1 + complex_abs_sq z2 + complex_abs_sq z3 = 1/2) :
    project_and_normalize [z0, z1, z2, z3, z4, z5, z6, z7] 0 0 3
      = some [complex_scale (Real.sqrt 2) z0,
         complex_scale (Real.sqrt 2) z1,
         complex_scale (Real.sqrt 2) z2,
         complex_scale (Real.sqrt 2) z3,
         ZERO,
         ZERO,
         ZERO,
         ZERO] := by
  rw [project_eval _ 0 0 3 (1/2) (by rw [op_q0_m0]; exact hP) (by norm_num [EPSILON])]
  rw [proj_map_q0_m0, sqrt_half_inv]

theorem proj_step_q0_m1 (z0 z1 z2 z3 z4 z5 z6 z7 : Cplx)
    (hP : complex_abs_sq z4 + complex_abs_sq z5 + complex_abs_sq z6 + complex_abs_sq z7 = 1/2) :
    project_and_normalize [z0, z1, z2, z3, z4, z5, z6, z7] 0 1 3
      = some [ZERO,
         ZERO,
         ZERO,
         ZERO,
         complex_scale (Real.sqrt 2) z4,
         complex_scale (Real.sqrt 2) z5,
         complex_scale (Real.sqrt 2) z6,
         complex_scale (Real.sqrt 2) z7] := by
  rw [project_eval _ 0 1 3 (1/2) (by rw [op_q0_m1]; exact hP) (by norm_num [EPSILON])]
  rw [proj_map_q0_m1, sqrt_half_inv]

theorem proj_step_q1_m0 (z0 z1 z2 z3 z4 z5 z6 z7 : Cplx)
    (hP : complex_abs_sq z0 + complex_abs_sq z1 + complex_abs_sq z4 + complex_abs_sq z5 = 1/2) :
    project_and_normalize [z0, z1, z2, z3, z4, z5, z6, z7] 1 0 3
      = some [complex_scale (Real.sqrt 2) z0,
         complex_scale (Real.sqrt 2) z1,
         ZERO,
         ZERO,
         complex_scale (Real.sqrt 2) z4,
         complex_scale (Real.sqrt 2) z5,
         ZERO,
         ZERO] := by
  rw [project_eval _ 1 0 3 (1/2) (by rw [op_q1_m0]; exact hP) (by norm_num [EPSILON])]
  rw [proj_map_q1_m0, sqrt_half_inv]

theorem proj_step_q1_m1 (z0 z1 z2 z3 z4 z5 z6 z7 : Cplx)
    (hP : complex_abs_sq z2 + complex_abs_sq z3 + complex_abs_sq z6 + complex_abs_sq z7 = 1/2) :
    project_and_normalize [z0, z1, z2, z3, z4, z5, z6, z7] 1 1 3
      = some [ZERO,
         ZERO,
         complex_scale (Real.sqrt 2) z2,
         complex_scale (Real.sqrt 2) z3,
         ZERO,
         ZERO,
         complex_scale (Real.sqrt 2) z6,
         complex_scale (Real.sqrt 2) z7] := by
  rw [project_eval _ 1 1 3 (1/2) (by rw [op_q1_m1]; exact hP) (by norm_num [EPSILON])]
  rw [proj_map_q1_m1, sqrt_half_inv]

theorem state0_eval (a b : Cplx) :
    ((create_zero_state 3).set 0 a).set 4 b = [a, 0, 0, 0, b, 0, 0, 0] := rfl

/-- After the Bell-pair preparation and Alice\'s operations the 3-qubit
state is `(a, b, b, a, a, -b, -b, a)/2`. -/
theorem teleport_state4 (a b : Cplx) :
    apply_single_qubit_gate (apply_two_qubit_gate (apply_two_qubit_gate
        (apply_single_qubit_gate [a, 0, 0, 0, b, 0, 0, 0] GATE_H 1 3)
        GATE_CNOT 1 2 3) GATE_CNOT 0 1 3) GATE_H 0 3
      = [((1/2 : ℝ) : ℂ) * a, ((1/2 : ℝ) : ℂ) * b, ((1/2 : ℝ) : ℂ) * b, ((1/2 : ℝ) : ℂ) * a,
         ((1/2 : ℝ) : ℂ) * a, -(((1/2 : ℝ) : ℂ) * b), -(((1/2 : ℝ) : ℂ) * b),
         ((1/2 : ℝ) : ℂ) * a] := by
  rw [H_on_qubit1_of_three, CNOT_on_12_of_three, CNOT_on_01_of_three, H_on_qubit0_of_three]
  push_cast
  simp only [List.cons.injEq, and_true]
  refine ⟨?_, ?_, ?_, ?_, ?_, ?_, ?_, ?_⟩ <;>
    first
      | linear_combination a * sqrt1_2_sq_c
      | linear_combination b * sqrt1_2_sq_c
      | linear_combination (-a) * sqrt1_2_sq_c
      | linear_combination (-b) * sqrt1_2_sq_c


/-- The teleportation pipeline at measurement pair `(0, 0)` ends with Bob
holding exactly the input amplitude pair at indices `base, base|1`. -/
theorem teleport_eval_00 (theta phi : ℝ) :
    teleport_final_state theta phi 0 0
      = some [(⟨Real.cos (theta / 2), 0⟩ : Cplx), (⟨Real.sin (theta / 2) * Real.cos phi, Real.sin (theta / 2) * Real.sin phi⟩ : Cplx), 0, 0, 0, 0, 0, 0] := by
  have hnorm : complex_abs_sq (⟨Real.cos (theta / 2), 0⟩ : Cplx) + complex_abs_sq (⟨Real.sin (theta / 2) * Real.cos phi, Real.sin (theta / 2) * Real.sin phi⟩ : Cplx) = 1 := by
    simp only [complex_abs_sq]
    linear_combination Real.sin_sq_add_cos_sq (theta / 2)
      + Real.sin (theta / 2) * Real.sin (theta / 2) * Real.sin_sq_add_cos_sq phi
  simp only [teleport_final_state, bloch_angles_to_state, complex_scale, complex_exp]
  rw [state0_eval, teleport_state4]
  rw [proj_step_q0_m0 _ _ _ _ _ _ _ _ (by
      simp only [abs_sq_neg_c, abs_sq_real_mul]
      linear_combination (1/2 : ℝ) * hnorm)]
  simp only []
  rw [proj_step_q1_m0 _ _ _ _ _ _ _ _ (by
      simp only [abs_sq_scale, abs_sq_neg_c, abs_sq_real_mul, abs_sq_ZERO]
      linear_combination ((1/4 : ℝ) * (complex_abs_sq (⟨Real.cos (theta / 2), 0⟩ : Cplx) + complex_abs_sq (⟨Real.sin (theta / 2) * Real.cos phi, Real.sin (theta / 2) * Real.sin phi⟩ : Cplx))) * sqrt2_sq
        + (1/2 : ℝ) * hnorm)]
  simp only []
  rw [if_pos (⟨trivial, trivial⟩ : True ∧ True)]
  simp only [Option.some.injEq, List.cons.injEq, and_true, complex_scale_eq, ZERO_eq,
    mul_zero]
  simp only [Complex.ofReal_div, Complex.ofReal_one, Complex.ofReal_ofNat, Complex.ofReal_neg]
  repeat' apply And.intro
  all_goals
    first
      | trivial
      | ring1
      | linear_combination ((1/2 : ℂ) * (⟨Real.cos (theta / 2), 0⟩ : Cplx)) * sqrt2_sq_c
      | linear_combination ((1/2 : ℂ) * (⟨Real.sin (theta / 2) * Real.cos phi, Real.sin (theta / 2) * Real.sin phi⟩ : Cplx)) * sqrt2_sq_c
      | linear_combination ((-(1/2) : ℂ) * (⟨Real.cos (theta / 2), 0⟩ : Cplx)) * sqrt2_sq_c
      | linear_combination ((-(1/2) : ℂ) * (⟨Real.sin (theta / 2) * Real.cos phi, Real.sin (theta / 2) * Real.sin phi⟩ : Cplx)) * sqrt2_sq_c

/-- The teleportation pipeline at measurement pair `(0, 1)` ends with Bob
holding exactly the input amplitude pair at indices `base, base|1`. -/
theorem teleport_eval_01 (theta phi : ℝ) :
    teleport_final_state theta phi 0 1
      = some [0, 0, (⟨Real.cos (theta / 2), 0⟩ : Cplx), (⟨Real.sin (theta / 2) * Real.cos phi, Real.sin (theta / 2) * Real.sin phi⟩ : Cplx), 0, 0, 0, 0] := by
  have hnorm : complex_abs_sq (⟨Real.cos (theta / 2), 0⟩ : Cplx) + complex_abs_sq (⟨Real.sin (theta / 2) * Real.cos phi, Real.sin (theta / 2) * Real.sin phi⟩ : Cplx) = 1 := by
    simp only [complex_abs_sq]
    linear_combination Real.sin_sq_add_cos_sq (theta / 2)
      + Real.sin (theta / 2) * Real.sin (theta / 2) * Real.sin_sq_add_cos_sq phi
  simp only [teleport_final_state, bloch_angles_to_state, complex_scale, complex_exp]
  rw [state0_eval, teleport_state4]
  rw [proj_step_q0_m0 _ _ _ _ _ _ _ _ (by
      simp only [abs_sq_neg_c, abs_sq_real_mul]
      linear_combination (1/2 : ℝ) * hnorm)]
  simp only []
  rw [proj_step_q1_m1 _ _ _ _ _ _ _ _ (by
      simp only [abs_sq_scale, abs_sq_neg_c, abs_sq_real_mul, abs_sq_ZERO]
      linear_combination ((1/4 : ℝ) * (complex_abs_sq (⟨Real.cos (theta / 2), 0⟩ : Cplx) + complex_abs_sq (⟨Real.sin (theta / 2) * Real.cos phi, Real.sin (theta / 2) * Real.sin phi⟩ : Cplx))) * sqrt2_sq
        + (1/2 : ℝ) * hnorm)]
  simp only []
  rw [if_neg (by norm_num), if_pos (⟨trivial, trivial⟩ : True ∧ True)]
  rw [X_on_qubit2_of_three]
  simp only [Option.some.injEq, List.cons.injEq, and_true, complex_scale_eq, ZERO_eq,
    mul_zero]
  simp only [Complex.ofReal_div, Complex.ofReal_one, Complex.ofReal_ofNat, Complex.ofReal_neg]
  repeat' apply And.intro
  all_goals
    first
      | trivial
      | ring1
      | linear_combination ((1/2 : ℂ) * (⟨Real.cos (theta / 2), 0⟩ : Cplx)) * sqrt2_sq_c
      | linear_combination ((1/2 : ℂ) * (⟨Real.sin (theta / 2) * Real.cos phi, Real.sin (theta / 2) * Real.sin phi⟩ : Cplx)) * sqrt2_sq_c
      | linear_combination ((-(1/2) : ℂ) * (⟨Real.cos (theta / 2), 0⟩ : Cplx)) * sqrt2_sq_c
      | linear_combination ((-(1/2) : ℂ) * (⟨Real.sin (theta / 2) * Real.cos phi, Real.sin (theta / 2) * Real.sin phi⟩ : Cplx)) * sqrt2_sq_c

/-- The teleportation pipeline at measurement pair `(1, 0)` ends with Bob
holding exactly the input amplitude pair at indices `base, base|1`. -/
theorem teleport_eval_10 (theta phi : ℝ) :
    teleport_final_state theta phi 1 0
      = some [0, 0, 0, 0, (⟨Real.cos (theta / 2), 0⟩ : Cplx), (⟨Real.sin (theta / 2) * Real.cos phi, Real.sin (theta / 2) * Real.sin phi⟩ : Cplx), 0, 0] := by
  have hnorm : complex_abs_sq (⟨Real.cos (theta / 2), 0⟩ : Cplx) + complex_abs_sq (⟨Real.sin (theta / 2) * Real.cos phi, Real.sin (theta / 2) * Real.sin phi⟩ : Cplx) = 1 := by
    simp only [complex_abs_sq]
    linear_combination Real.sin_sq_add_cos_sq (theta / 2)
      + Real.sin (theta / 2) * Real.sin (theta / 2) * Real.sin_sq_add_cos_sq phi
  simp only [teleport_final_state, bloch_angles_to_state, complex_scale, complex_exp]
  rw [state0_eval, teleport_state4]
  rw [proj_step_q0_m1 _ _ _ _ _ _ _ _ (by
      simp only [abs_sq_neg_c, abs_sq_real_mul]
      linear_combination (1/2 : ℝ) * hnorm)]
  simp only []
  rw [proj_step_q1_m0 _ _ _ _ _ _ _ _ (by
      simp only [abs_sq_scale, abs_sq_neg_c, abs_sq_real_mul, abs_sq_ZERO]
      linear_combination ((1/4 : ℝ) * (complex_abs_sq (⟨Real.cos (theta / 2), 0⟩ : Cplx) + complex_abs_sq (⟨Real.sin (theta / 2) * Real.cos phi, Real.sin (theta / 2) * Real.sin phi⟩ : Cplx))) * sqrt2_sq
        + (1/2 : ℝ) * hnorm)]
  simp only []
  rw [if_neg (by norm_num), if_neg (by norm_num), if_pos (⟨trivial, trivial⟩ : True ∧ True)]
  rw [Z_on_qubit2_of_three]
  simp only [Option.some.injEq, List.cons.injEq, and_true, complex_scale_eq, ZERO_eq,
    mul_zero]
  simp only [Complex.ofReal_div, Complex.ofReal_one, Complex.ofReal_ofNat, Complex.ofReal_neg]
  repeat' apply And.intro
  all_goals
    first
      | trivial
      | ring1
      | linear_combination ((1/2 : ℂ) * (⟨Real.cos (theta / 2), 0⟩ : Cplx)) * sqrt2_sq_c
      | linear_combination ((1/2 : ℂ) * (⟨Real.sin (theta / 2) * Real.cos phi, Real.sin (theta / 2) * Real.sin phi⟩ : Cplx)) * sqrt2_sq_c
      | linear_combination ((-(1/2) : ℂ) * (⟨Real.cos (theta / 2), 0⟩ : Cplx)) * sqrt2_sq_c
      | linear_combination ((-(1/2) : ℂ) * (⟨Real.sin (theta / 2) * Real.cos phi, Real.sin (theta / 2) * Real.sin phi⟩ : Cplx)) * sqrt2_sq_c

/-- The teleportation pipeline at measurement pair `(1, 1)` ends with Bob
holding exactly the input amplitude pair at indices `base, base|1`. -/
theorem teleport_eval_11 (theta phi : ℝ) :
    teleport_final_state theta phi 1 1
      = some [0, 0, 0, 0, 0, 0, (⟨Real.cos (theta / 2), 0⟩ : Cplx), (⟨Real.sin (theta / 2) * Real.cos phi, Real.sin (theta / 2) * Real.sin phi⟩ : Cplx)] := by
  have hnorm : complex_abs_sq (⟨Real.cos (theta / 2), 0⟩ : Cplx) + complex_abs_sq (⟨Real.sin (theta / 2) * Real.cos phi, Real.sin (theta / 2) * Real.sin phi⟩ : Cplx) = 1 := by
    simp only [complex_abs_sq]
    linear_combination Real.sin_sq_add_cos_sq (theta / 2)
      + Real.sin (theta / 2) * Real.sin (theta / 2) * Real.sin_sq_add_cos_sq phi
  simp only [teleport_final_state, bloch_angles_to_state, complex_scale, complex_exp]
  rw [state0_eval, teleport_state4]
  rw [proj_step_q0_m1 _ _ _ _ _ _ _ _ (by
      simp only [abs_sq_neg_c, abs_sq_real_mul]
      linear_combination (1/2 : ℝ) * hnorm)]
  simp only []
  rw [proj_step_q1_m1 _ _ _ _ _ _ _ _ (by
      simp only [abs_sq_scale, abs_sq_neg_c, abs_sq_real_mul, abs_sq_ZERO]
      linear_combination ((1/4 : ℝ) * (complex_abs_sq (⟨Real.cos (theta / 2), 0⟩ : Cplx) + complex_abs_sq (⟨Real.sin (theta / 2) * Real.cos phi, Real.sin (theta / 2) * Real.sin phi⟩ : Cplx))) * sqrt2_sq
        + (1/2 : ℝ) * hnorm)]
  simp only []
  rw [if_neg (by norm_num), if_neg (by norm_num), if_neg (by norm_num)]
  rw [X_on_qubit2_of_three, Z_on_qubit2_of_three]
  simp only [Option.some.injEq, List.cons.injEq, and_true, complex_scale_eq, ZERO_eq,
    mul_zero]
  simp only [Complex.ofReal_div, Complex.ofReal_one, Complex.ofReal_ofNat, Complex.ofReal_neg]
  repeat' apply And.intro
  all_goals
    first
      | trivial
      | ring1
      | linear_combination ((1/2 : ℂ) * (⟨Real.cos (theta / 2), 0⟩ : Cplx)) * sqrt2_sq_c
      | linear_combination ((1/2 : ℂ) * (⟨Real.sin (theta / 2) * Real.cos phi, Real.sin (theta / 2) * Real.sin phi⟩ : Cplx)) * sqrt2_sq_c
      | linear_combination ((-(1/2) : ℂ) * (⟨Real.cos (theta / 2), 0⟩ : Cplx)) * sqrt2_sq_c
      | linear_combination ((-(1/2) : ℂ) * (⟨Real.sin (theta / 2) * Real.cos phi, Real.sin (theta / 2) * Real.sin phi⟩ : Cplx)) * sqrt2_sq_c

/-- In all four measurement branches Bob\'s extracted amplitude pair is
exactly the input pair, so the terminal conversion sees precisely
`bloch_angles_to_state theta phi`. -/
theorem teleport_exact (theta phi : ℝ) (m0 m1 : ℕ) (hm0 : m0 ≤ 1) (hm1 : m1 ≤ 1) :
    teleport_bob_angles theta phi m0 m1
      = some (state_to_bloch_angles (bloch_angles_to_state theta phi)) := by
  interval_cases m0 <;> interval_cases m1
  · simp only [teleport_bob_angles]
    rw [teleport_eval_00]
    rfl
  · simp only [teleport_bob_angles]
    rw [teleport_eval_01]
    rfl
  · simp only [teleport_bob_angles]
    rw [teleport_eval_10]
    rfl
  · simp only [teleport_bob_angles]
    rw [teleport_eval_11]
    rfl


-- ── Bloch-angle round-trip analysis ───────────────────────────────────

theorem mk_cos_sin (t : ℝ) :
    (⟨Real.cos t, Real.sin t⟩ : ℂ) = Complex.cos t + Complex.sin t * Complex.I := by
  apply Complex.ext <;>
    simp [Complex.cos_ofReal_re, Complex.sin_ofReal_re, Complex.cos_ofReal_im,
      Complex.sin_ofReal_im]

/-- `normalize_angle` is the identity on `[0, 2π)`. -/
theorem normalize_angle_of_mem (a : ℝ) (h0 : 0 ≤ a) (h1 : a < 2 * Real.pi) :
    normalize_angle a = a := by
  have hpi : (0:ℝ) < 2 * Real.pi := by positivity
  have hf : ⌊a / (2 * Real.pi)⌋ = 0 := by
    rw [Int.floor_eq_zero_iff]
    constructor
    · positivity
    · rw [div_lt_one hpi]
      exact h1
  rw [normalize_angle]
  simp only [hf, Int.cast_zero, mul_zero, sub_zero]
  rw [if_neg (by linarith)]

/-- `normalize_angle` adds one period on `[-2π, 0)`. -/
theorem normalize_angle_of_neg (a : ℝ) (h0 : -(2 * Real.pi) ≤ a) (h1 : a < 0) :
    normalize_angle a = a + 2 * Real.pi := by
  have hpi : (0:ℝ) < 2 * Real.pi := by positivity
  have hf : ⌊a / (2 * Real.pi)⌋ = -1 := by
    rw [Int.floor_eq_iff]
    constructor
    · push_cast
      rw [le_div_iff₀ hpi]
      linarith
    · push_cast
      rw [div_lt_iff₀ hpi]
      linarith
  rw [normalize_angle]
  simp only [hf, Int.cast_neg, Int.cast_one, mul_neg, mul_one, sub_neg_eq_add]
  rw [if_neg (by linarith)]

/-- For a positive radius `s` and `φ ∈ [0, 2π)`, `normalize_angle ∘ arg`
recovers `φ` from `s·e^{iφ}` exactly. -/
theorem recover_phi (phi : ℝ) (hp0 : 0 ≤ phi) (hp1 : phi < 2 * Real.pi) (s : ℝ) (hs : 0 < s) :
    normalize_angle (Complex.arg ⟨s * Real.cos phi, s * Real.sin phi⟩) = phi := by
  have hmul : (⟨s * Real.cos phi, s * Real.sin phi⟩ : ℂ)
      = (s : ℂ) * ⟨Real.cos phi, Real.sin phi⟩ := by
    apply Complex.ext <;> simp
  rw [hmul, Complex.arg_real_mul _ hs]
  by_cases hple : phi ≤ Real.pi
  · rw [mk_cos_sin phi, Complex.arg_cos_add_sin_mul_I ⟨by nlinarith [Real.pi_pos], hple⟩]
    exact normalize_angle_of_mem phi hp0 hp1
  · push_neg at hple
    have hsub : (⟨Real.cos phi, Real.sin phi⟩ : ℂ)
        = ⟨Real.cos (phi - 2 * Real.pi), Real.sin (phi - 2 * Real.pi)⟩ := by
      rw [Real.cos_sub_two_pi, Real.sin_sub_two_pi]
    rw [hsub, mk_cos_sin (phi - 2 * Real.pi),
      Complex.arg_cos_add_sin_mul_I ⟨by linarith, by linarith [Real.pi_pos]⟩]
    rw [normalize_angle_of_neg _ (by linarith) (by linarith)]
    ring

/-- The round-trip recovery: on `θ ∈ [0, π]` with `sin(θ/2) ≥ EPSILON`,
`state_to_bloch_angles ∘ bloch_angles_to_state` returns θ within `1e-9`
(exactly, except within `π·1e-10` of the pole `θ = π`) and φ exactly. -/
theorem bloch_recovery (theta phi : ℝ) (h0 : 0 ≤ theta) (h1 : theta ≤ Real.pi)
    (hp0 : 0 ≤ phi) (hp1 : phi < 2 * Real.pi)
    (hs : EPSILON ≤ Real.sin (theta / 2)) :
    |(state_to_bloch_angles (bloch_angles_to_state theta phi)).1 - theta| < 1e-9 ∧
    (state_to_bloch_angles (bloch_angles_to_state theta phi)).2 = phi := by
  have hx0 : 0 ≤ theta / 2 := by linarith
  have hx2 : theta / 2 ≤ Real.pi / 2 := by linarith
  have hcos0 : 0 ≤ Real.cos (theta / 2) :=
    Real.cos_nonneg_of_mem_Icc ⟨by linarith [Real.pi_pos], hx2⟩
  have hsin_pos : 0 < Real.sin (theta / 2) := lt_of_lt_of_le (by norm_num [EPSILON]) hs
  simp only [bloch_angles_to_state, state_to_bloch_angles, complex_scale, complex_exp,
    complex_arg]
  have habs0 : complex_abs ⟨Real.cos (theta / 2), 0⟩ = Real.cos (theta / 2) := by
    rw [complex_abs, complex_abs_sq]
    simp only [mul_zero, add_zero]
    exact Real.sqrt_mul_self hcos0
  have habs1 : complex_abs ⟨Real.sin (theta / 2) * Real.cos phi,
      Real.sin (theta / 2) * Real.sin phi⟩ = Real.sin (theta / 2) := by
    rw [complex_abs, complex_abs_sq]
    simp only []
    rw [show Real.sin (theta / 2) * Real.cos phi * (Real.sin (theta / 2) * Real.cos phi)
        + Real.sin (theta / 2) * Real.sin phi * (Real.sin (theta / 2) * Real.sin phi)
        = Real.sin (theta / 2) * Real.sin (theta / 2) from by
      linear_combination (Real.sin (theta / 2) * Real.sin (theta / 2))
        * Real.sin_sq_add_cos_sq phi]
    exact Real.sqrt_mul_self hsin_pos.le
  have hclamp : min 1 (max 0 (complex_abs ⟨Real.cos (theta / 2), 0⟩))
      = Real.cos (theta / 2) := by
    rw [habs0, max_eq_right hcos0, min_eq_right (Real.cos_le_one _)]
  rw [hclamp, habs1]
  have harg0 : Complex.arg ⟨Real.cos (theta / 2), 0⟩ = 0 := by
    rw [show ((⟨Real.cos (theta / 2), 0⟩ : ℂ)) = ((Real.cos (theta / 2) : ℝ) : ℂ) from rfl]
    exact Complex.arg_ofReal_of_nonneg hcos0
  by_cases hb : Real.cos (theta / 2) < EPSILON
  · rw [if_pos hb]
    constructor
    · simp only
      have hj := @Real.mul_le_sin (Real.pi / 2 - theta / 2) (by linarith) (by linarith)
      rw [Real.sin_pi_div_two_sub] at hj
      have hy2 : Real.pi / 2 - theta / 2 ≤ Real.cos (theta / 2) * (Real.pi / 2) := by
        rw [mul_comm] at hj
        have h2pi : (0:ℝ) < 2 / Real.pi := by positivity
        have hdiv := (le_div_iff₀ h2pi).mpr hj
        calc Real.pi / 2 - theta / 2 ≤ Real.cos (theta / 2) / (2 / Real.pi) := hdiv
          _ = Real.cos (theta / 2) * (Real.pi / 2) := by
            field_simp
      rw [abs_lt]
      have heps : EPSILON = 1e-10 := rfl
      constructor <;> nlinarith [Real.pi_gt_3141592, Real.pi_lt_315, hb, hcos0, hy2]
    · simp only
      exact recover_phi phi hp0 hp1 _ hsin_pos
  · rw [if_neg hb, if_neg (by rw [not_lt]; exact hs)]
    constructor
    · simp only
      rw [Real.arccos_cos hx0 (by linarith [Real.pi_pos])]
      rw [show 2 * (theta / 2) - theta = 0 from by ring]
      norm_num
    · simp only
      rw [harg0, sub_zero]
      exact recover_phi phi hp0 hp1 _ hsin_pos

/-- C8 counterexample: at `θ = 1e-12 ∈ (0, π)`, `φ = 3 ∈ [0, 2π)`, the
`|alpha1| < ε` pole branch IS taken: the round-trip returns `(0, 0)` and
the recovered φ misses the input by 3, far beyond `1e-9`. -/
theorem bloch_round_trip_counterexample :
    (0:ℝ) < 1e-12 ∧ (1e-12:ℝ) < Real.pi ∧ (0:ℝ) ≤ 3 ∧ (3:ℝ) < 2 * Real.pi ∧
    state_to_bloch_angles (bloch_angles_to_state 1e-12 3) = (0, 0) ∧
    ¬ |(state_to_bloch_angles (bloch_angles_to_state 1e-12 3)).2 - 3| < 1e-9 := by
  have hpi := Real.pi_gt_3141592
  have hx0 : (0:ℝ) < 1e-12 / 2 := by norm_num
  have hsin_lt : Real.sin (1e-12 / 2) < EPSILON := by
    have h := Real.sin_lt hx0
    rw [EPSILON]
    linarith
  have hsin_nonneg : 0 ≤ Real.sin (1e-12 / 2) :=
    Real.sin_nonneg_of_nonneg_of_le_pi (by norm_num) (by linarith)
  have hcos_lb : (0.9:ℝ) ≤ Real.cos (1e-12 / 2) := by
    have h := @Real.one_sub_sq_div_two_le_cos (1e-12 / 2)
    nlinarith
  have hcos0 : (0:ℝ) ≤ Real.cos (1e-12 / 2) := by linarith
  have heval : state_to_bloch_angles (bloch_angles_to_state 1e-12 3) = (0, 0) := by
    simp only [bloch_angles_to_state, state_to_bloch_angles, complex_scale, complex_exp,
      complex_arg]
    have habs0 : complex_abs ⟨Real.cos (1e-12 / 2), 0⟩ = Real.cos (1e-12 / 2) := by
      rw [complex_abs, complex_abs_sq]
      simp only [mul_zero, add_zero]
      exact Real.sqrt_mul_self hcos0
    have habs1 : complex_abs ⟨Real.sin (1e-12 / 2) * Real.cos 3,
        Real.sin (1e-12 / 2) * Real.sin 3⟩ = Real.sin (1e-12 / 2) := by
      rw [complex_abs, complex_abs_sq]
      simp only []
      rw [show Real.sin (1e-12 / 2) * Real.cos 3 * (Real.sin (1e-12 / 2) * Real.cos 3)
          + Real.sin (1e-12 / 2) * Real.sin 3 * (Real.sin (1e-12 / 2) * Real.sin 3)
          = Real.sin (1e-12 / 2) * Real.sin (1e-12 / 2) from by
        linear_combination (Real.sin (1e-12 / 2) * Real.sin (1e-12 / 2))
          * Real.sin_sq_add_cos_sq 3]
      exact Real.sqrt_mul_self hsin_nonneg
    have hclamp : min 1 (max 0 (complex_abs ⟨Real.cos (1e-12 / 2), 0⟩))
        = Real.cos (1e-12 / 2) := by
      rw [habs0, max_eq_right hcos0, min_eq_right (Real.cos_le_one _)]
    rw [hclamp, habs1, if_neg (by rw [not_lt, EPSILON]; linarith), if_pos hsin_lt]
  refine ⟨by norm_num, by linarith, by norm_num, by linarith, heval, ?_⟩
  rw [heval]
  norm_num

/-- C8 (corrected): for θ in the open interval (0, π) and φ in [0, 2π),
WITH THE AMENDMENT `sin(θ/2) ≥ 1e-10` (excluding a `~2e-10`-wide sliver
above θ = 0 where the `|alpha1| < ε` branch loses φ), the round-trip
`state_to_bloch_angles (bloch_angles_to_state θ φ)` recovers both angles
within `1e-9`.  (Near θ = π the `|alpha0| < ε` branch IS taken, contrary
to the claim\'s parenthetical, but still lands within `π·1e-10` of θ.) -/
theorem bloch_round_trip_amended (theta phi : ℝ) (h0 : 0 < theta) (h1 : theta < Real.pi)
    (hp0 : 0 ≤ phi) (hp1 : phi < 2 * Real.pi) (hs : EPSILON ≤ Real.sin (theta / 2)) :
    |(state_to_bloch_angles (bloch_angles_to_state theta phi)).1 - theta| < 1e-9 ∧
    |(state_to_bloch_angles (bloch_angles_to_state theta phi)).2 - phi| < 1e-9 := by
  obtain ⟨ht, hph⟩ := bloch_recovery theta phi h0.le h1.le hp0 hp1 hs
  refine ⟨ht, ?_⟩
  rw [hph]
  norm_num

/-- Witness for the amended C8 at `θ = π/2`, `φ = π`. -/
theorem bloch_round_trip_amended_witness :
    |(state_to_bloch_angles (bloch_angles_to_state (Real.pi / 2) Real.pi)).1
        - Real.pi / 2| < 1e-9 ∧
    |(state_to_bloch_angles (bloch_angles_to_state (Real.pi / 2) Real.pi)).2
        - Real.pi| < 1e-9 :=
  bloch_round_trip_amended (Real.pi / 2) Real.pi (by positivity)
    (by linarith [Real.pi_pos]) Real.pi_pos.le (by linarith [Real.pi_pos])
    (by
      rw [EPSILON, show Real.pi / 2 / 2 = Real.pi / 4 from by ring, Real.sin_pi_div_four]
      nlinarith [Real.sq_sqrt (by norm_num : (0:ℝ) ≤ 2), Real.sqrt_nonneg 2])

/-- C1 counterexample: at `θ = 0`, `φ = 3`, measurements `(0, 0)`, the
protocol itself is exact but the terminal `state_to_bloch_angles` takes
the `|alpha1| < ε` branch and reports `φ = 0`, off by 3 ≫ 1e-6. -/
theorem teleportation_counterexample :
    teleport_bob_angles 0 3 0 0
        = some (state_to_bloch_angles (bloch_angles_to_state 0 3)) ∧
    state_to_bloch_angles (bloch_angles_to_state 0 3) = (0, 0) ∧
    (0:ℝ) ≤ 3 ∧ (3:ℝ) < 2 * Real.pi ∧ ¬ |(0:ℝ) - 3| < 1e-6 := by
  have hpi := Real.pi_gt_3141592
  have heval : state_to_bloch_angles (bloch_angles_to_state 0 3) = (0, 0) := by
    simp only [bloch_angles_to_state, state_to_bloch_angles, complex_scale, complex_exp,
      complex_arg]
    rw [show (0:ℝ) / 2 = 0 from by norm_num, Real.cos_zero, Real.sin_zero]
    have habs0 : complex_abs ⟨(1:ℝ), 0⟩ = 1 := by
      rw [complex_abs, complex_abs_sq]
      simp only [mul_zero, add_zero, mul_one]
      exact Real.sqrt_one
    have habs1 : complex_abs ⟨0 * Real.cos 3, 0 * Real.sin 3⟩ = 0 := by
      rw [complex_abs, complex_abs_sq]
      simp only [zero_mul, mul_zero, add_zero]
      exact Real.sqrt_zero
    rw [habs0, habs1, max_eq_right (by norm_num : (0:ℝ) ≤ 1), min_self,
      if_neg (by norm_num [EPSILON]), if_pos (by norm_num [EPSILON])]
  exact ⟨teleport_exact 0 3 0 0 (by norm_num) (by norm_num), heval, by norm_num,
    by linarith, by norm_num⟩

/-- C1 (corrected): for every θ ∈ [0, π], φ ∈ [0, 2π), measurement pair
`m0, m1 ≤ 1`, WITH THE AMENDMENT `sin(θ/2) ≥ 1e-10`, the 8-step protocol
hands Bob exactly the input amplitude pair, and the terminal conversion
recovers (θ, φ) within `1e-6` (θ exactly except within `π·1e-10` of the
pole θ = π; φ exactly). -/
theorem teleportation_recovers_angles (theta phi : ℝ) (m0 m1 : ℕ)
    (hm0 : m0 ≤ 1) (hm1 : m1 ≤ 1) (h0 : 0 ≤ theta) (h1 : theta ≤ Real.pi)
    (hp0 : 0 ≤ phi) (hp1 : phi < 2 * Real.pi) (hs : EPSILON ≤ Real.sin (theta / 2)) :
    ∃ p : ℝ × ℝ, teleport_bob_angles theta phi m0 m1 = some p ∧
      |p.1 - theta| < 1e-6 ∧ |p.2 - phi| < 1e-6 := by
  obtain ⟨ht, hph⟩ := bloch_recovery theta phi h0 h1 hp0 hp1 hs
  refine ⟨state_to_bloch_angles (bloch_angles_to_state theta phi),
    teleport_exact theta phi m0 m1 hm0 hm1, by rw [abs_lt] at ht ⊢; constructor <;> linarith, ?_⟩
  rw [hph]
  norm_num

/-- Witness for the corrected C1 at `θ = π/2`, `φ = π`, measurements `(0, 1)`. -/
theorem teleportation_recovers_angles_witness :
    ∃ p : ℝ × ℝ, teleport_bob_angles (Real.pi / 2) Real.pi 0 1 = some p ∧
      |p.1 - Real.pi / 2| < 1e-6 ∧ |p.2 - Real.pi| < 1e-6 :=
  teleportation_recovers_angles (Real.pi / 2) Real.pi 0 1 (by norm_num) (by norm_num)
    (by positivity) (by linarith [Real.pi_pos]) Real.pi_pos.le (by linarith [Real.pi_pos])
    (by
      rw [EPSILON, show Real.pi / 2 / 2 = Real.pi / 4 from by ring, Real.sin_pi_div_four]
      nlinarith [Real.sq_sqrt (by norm_num : (0:ℝ) ≤ 2), Real.sqrt_nonneg 2])


end

end Eigenvue
